import Mathlib

/-!
Verification of the ThreatNexus core against its specification.

Shallow embedding of the three core subsystems of the repository
(entity extraction, knowledge-graph merge, relationship reconciliation,
and the TQL query interpreter) together with proofs and refutations of
the frozen claims C1 to C10.

Sources embedded:
* src/services/mlEngine.ts  (getSimilarity, processTextLocal, mergeKnowledgeGraph)
* src/App.tsx               (handleIngest relationship reconciliation)
* src/components/ThreatQuery.tsx (runQuery, compare)
* src/types.ts              (Entity, EntityType, Relationship)

Modelling conventions:
* JS numbers are modelled as rationals; the concrete constants involved
  (0.5, 0.8, 0.9, 0.95, confidence scores p/q with small q) are far from any
  double-rounding boundary, so every comparison in the source has the same
  verdict over the rationals.
* crypto.randomUUID is modelled by a deterministic injective fresh-identifier
  supply (freshId below); the source relies only on the freshness of the ids.
* new Date().toISOString() is an environment input; it is passed in as an
  explicit timestamp argument.
* JS string lowercasing / uppercasing is modelled per character with
  Char.toLower / Char.toUpper (the sources only lowercase ASCII data).
-/

namespace ThreatNexus

/-- Lowercase a string character by character; models JS String.toLowerCase
as used throughout mlEngine.ts. -/
def lowerStr (s : String) : String :=
  String.mk (s.toList.map Char.toLower)

/-- Uppercase a string character by character; models JS String.toUpperCase
as used in ThreatQuery.tsx. -/
def upperStr (s : String) : String :=
  String.mk (s.toList.map Char.toUpper)

/-- The EntityType enumeration of src/types.ts.  REPORT is referenced by
src/App.tsx (EntityType.REPORT) and listed in the specification's data model,
so it is included here. -/
inductive EntityType where
  | THREAT_ACTOR
  | MALWARE
  | IP_ADDRESS
  | DOMAIN
  | CVE
  | TTP
  | ORGANIZATION
  | LOCATION
  | REPORT
deriving DecidableEq, Repr

/-- The string value carried by each EntityType enum member in src/types.ts. -/
def typeStr : EntityType → String
  | .THREAT_ACTOR => "THREAT_ACTOR"
  | .MALWARE => "MALWARE"
  | .IP_ADDRESS => "IP_ADDRESS"
  | .DOMAIN => "DOMAIN"
  | .CVE => "CVE"
  | .TTP => "TTP"
  | .ORGANIZATION => "ORGANIZATION"
  | .LOCATION => "LOCATION"
  | .REPORT => "REPORT"

/-- Object.values(EntityType): the enum members in declaration order. -/
def entityTypeValues : List EntityType :=
  [.THREAT_ACTOR, .MALWARE, .IP_ADDRESS, .DOMAIN, .CVE, .TTP,
   .ORGANIZATION, .LOCATION, .REPORT]

/-- The Entity interface of src/types.ts.  Optional TypeScript fields are
Options; isEnriched / isValidated are set by mlEngine.ts and App.tsx. -/
structure Entity where
  id : String
  name : String
  aliases : List String
  etype : EntityType
  confidenceScore : ℚ
  firstSeen : String
  lastSeen : String
  description : Option String
  sectors : Option (List String)
  tools : Option (List String)
  sources : List String
  isEnriched : Bool
  isValidated : Bool
deriving DecidableEq, Repr

/-- The Relationship interface of src/types.ts. -/
structure Relationship where
  source : String
  target : String
  rtype : String
  weight : ℚ
deriving DecidableEq, Repr

/-- The transient ExtractionCandidate of src/services/mlEngine.ts. -/
structure ExtractionCandidate where
  name : String
  ctype : EntityType
  confidence : ℚ
  index : Nat
deriving DecidableEq, Repr

/-! ## JS Set / Map helpers

`new Set(list)` keeps the first occurrence of each element, in insertion
order; `Map.set` overwrites an existing key in place and appends a new one. -/
/-- Spread of `new Set(seen ++ l)` restricted to the part contributed by l:
keeps the first occurrence of each element not already seen. -/
def jsDedupAux {α : Type} [DecidableEq α] : List α → List α → List α
  | _, [] => []
  | seen, x :: xs =>
    if x ∈ seen then jsDedupAux seen xs else x :: jsDedupAux (x :: seen) xs

/-- JS spread of a Set, as in Array.from(new Set(l)): deduplicate keeping
first occurrences. -/
def jsDedup {α : Type} [DecidableEq α] (l : List α) : List α :=
  jsDedupAux [] l

/-- JS Map.set on an association list: overwrite in place or append. -/
def mapSet : List (String × String) → String → String → List (String × String)
  | [], k, v => [(k, v)]
  | (k', v') :: rest, k, v =>
    if k' = k then (k', v) :: rest else (k', v') :: mapSet rest k v

/-- JS Map.get on an association list. -/
def mapGet? : List (String × String) → String → Option String
  | [], _ => none
  | (k', v') :: rest, k => if k' = k then some v' else mapGet? rest k

/-! ## getSimilarity (src/services/mlEngine.ts lines 35-41)

Jaccard index over the sets of characters of the two lowercased strings.
JS computes intersection.size / union.size with float division; 0/0 is NaN
in JS and 0 in this embedding (both fail the comparison with 1 that claim
C7 asserts, and both are never greater than 0.8, so merge behaviour
coincides). -/
/-- The character set of the lowercased string: new Set(str.toLowerCase().split('')). -/
def charSet (s : String) : Finset Char :=
  (s.toList.map Char.toLower).toFinset

/-- Jaccard similarity of two strings, from mlEngine.ts getSimilarity.
The quotient of the two natural numbers is formed with mkRat, which agrees
with field division (getSimilarity_eq_div below) and lets the kernel
evaluate concrete instances. -/
def getSimilarity (str1 str2 : String) : ℚ :=
  mkRat ((charSet str1 ∩ charSet str2).card : ℤ) ((charSet str1 ∪ charSet str2).card)

/-! ## mergeKnowledgeGraph (src/services/mlEngine.ts lines 162-192)

The source copies the current entity array, then for each incoming entity
finds a match (first exact case-insensitive name match over the whole list,
else — for THREAT_ACTORs only — the first entity of the same type with
Jaccard name similarity above 0.8), mutates the match in place
(lastSeen, sources, confidenceScore only) or appends the incoming entity,
and records old-id to canonical-id in a Map. -/
/-- Update the first list element satisfying p by f, returning the updated
list together with the original matched element; none when nothing matches.
Models `result.find(...)` followed by in-place mutation of the found object. -/
def updateFirst (p : Entity → Bool) (f : Entity → Entity) :
    List Entity → Option (List Entity × Entity)
  | [] => none
  | e :: es =>
    if p e then some (f e :: es, e)
    else (updateFirst p f es).map (fun r => (e :: r.1, r.2))

/-- The in-place mutation performed on a matched entity:
match.lastSeen = newE.lastSeen;
match.sources = [...new Set([...match.sources, ...newE.sources])];
match.confidenceScore = Math.max(match.confidenceScore, newE.confidenceScore). -/
def mergeUpdate (m newE : Entity) : Entity :=
  { m with
    lastSeen := newE.lastSeen,
    sources := jsDedup (m.sources ++ newE.sources),
    confidenceScore := max m.confidenceScore newE.confidenceScore }

/-- Exact match predicate: e.name.toLowerCase() === newE.name.toLowerCase(). -/
def exactPred (newE : Entity) (e : Entity) : Bool :=
  lowerStr e.name == lowerStr newE.name

/-- Fuzzy match predicate (used only when newE is a THREAT_ACTOR):
e.type === newE.type && getSimilarity(e.name, newE.name) > 0.8.
The literal 0.8 is written mkRat 4 5 (provably equal to (4 : ℚ)/5) so the
predicate evaluates by kernel reduction. -/
def fuzzyPred (newE : Entity) (e : Entity) : Bool :=
  e.etype == newE.etype && decide (mkRat 4 5 < getSimilarity e.name newE.name)

/-- The body of the newEntities.forEach loop in mergeKnowledgeGraph. -/
def mergeStep (st : List Entity × List (String × String)) (newE : Entity) :
    List Entity × List (String × String) :=
  match updateFirst (exactPred newE) (fun m => mergeUpdate m newE) st.1 with
  | some (result2, m) => (result2, mapSet st.2 newE.id m.id)
  | none =>
    if newE.etype == EntityType.THREAT_ACTOR then
      match updateFirst (fuzzyPred newE) (fun m => mergeUpdate m newE) st.1 with
      | some (result2, m) => (result2, mapSet st.2 newE.id m.id)
      | none => (st.1 ++ [newE], mapSet st.2 newE.id newE.id)
    else (st.1 ++ [newE], mapSet st.2 newE.id newE.id)

/-- mergeKnowledgeGraph: returns the merged entity list and the
old-id to canonical-id map. -/
def mergeKnowledgeGraph (currentEntities newEntities : List Entity) :
    List Entity × List (String × String) :=
  newEntities.foldl mergeStep (currentEntities, [])

/-- The tuple of entity fields that mergeKnowledgeGraph never writes:
everything except lastSeen, sources and confidenceScore. -/
def frameView (e : Entity) :
    String × String × EntityType × String × List String ×
    Option (List String) × Option (List String) × Option String × Bool × Bool :=
  (e.id, e.name, e.etype, e.firstSeen, e.aliases, e.sectors, e.tools,
   e.description, e.isEnriched, e.isValidated)

/-- Two entities agree on every field the merge never writes. -/
def frameEq (a b : Entity) : Prop :=
  frameView a = frameView b

/-- b can be matched (exactly or fuzzily) against some entity of l;
this is what guarantees that a second merge of the same batch appends
nothing. -/
def matchable (l : List Entity) (b : Entity) : Prop :=
  ∃ e ∈ l, lowerStr e.name = lowerStr b.name
    ∨ (b.etype = EntityType.THREAT_ACTOR ∧ e.etype = b.etype
        ∧ mkRat 4 5 < getSimilarity e.name b.name)

/-! ### Concrete entities used in counterexamples and witnesses -/
/-- Existing record for the C2 counterexample: aliases contain "x". -/
def cEmotetOld : Entity :=
  { id := "id-old", name := "Emotet", aliases := ["x"],
    etype := EntityType.MALWARE, confidenceScore := mkRat 9 10,
    firstSeen := "2024-01-01", lastSeen := "2024-01-01",
    description := some "old description", sectors := some ["Financial"],
    tools := none, sources := ["s1"], isEnriched := false, isValidated := false }

/-- Incoming record for the C2 counterexample: same name up to case,
new alias "y", new sector, new description. -/
def cEmotetNew : Entity :=
  { id := "id-new", name := "emotet", aliases := ["y"],
    etype := EntityType.MALWARE, confidenceScore := mkRat 4 5,
    firstSeen := "2024-02-02", lastSeen := "2024-02-02",
    description := some "new description", sectors := some ["Defense"],
    tools := none, sources := ["s2"], isEnriched := false, isValidated := false }

/-- Existing THREAT_ACTOR "Fancy Bear APT" (similarity 9/11 to "Fancy Bear"). -/
def cFancyAPT : Entity :=
  { id := "id-apt", name := "Fancy Bear APT", aliases := [],
    etype := EntityType.THREAT_ACTOR, confidenceScore := mkRat 9 10,
    firstSeen := "2024-01-01", lastSeen := "2024-01-01",
    description := none, sectors := none, tools := none,
    sources := ["s1"], isEnriched := false, isValidated := false }

/-- Incoming THREAT_ACTOR "Fancy Bear". -/
def cFancyActor : Entity :=
  { id := "id-actor", name := "Fancy Bear", aliases := [],
    etype := EntityType.THREAT_ACTOR, confidenceScore := mkRat 19 20,
    firstSeen := "2024-02-02", lastSeen := "2024-02-02",
    description := none, sectors := none, tools := none,
    sources := ["s2"], isEnriched := false, isValidated := false }

/-- Incoming MALWARE also named "Fancy Bear" (same name, different type). -/
def cFancyMal : Entity :=
  { id := "id-mal", name := "Fancy Bear", aliases := [],
    etype := EntityType.MALWARE, confidenceScore := mkRat 9 10,
    firstSeen := "2024-02-02", lastSeen := "2024-02-02",
    description := none, sectors := none, tools := none,
    sources := ["s3"], isEnriched := false, isValidated := false }

/-- The batch that refutes merge idempotence (C6). -/
def cBatch : List Entity := [cFancyActor, cFancyMal]

/-- First entity of the C10 counterexample batch. -/
def cX1 : Entity :=
  { id := "id-x1", name := "X", aliases := [],
    etype := EntityType.MALWARE, confidenceScore := mkRat 1 2,
    firstSeen := "2024-03-01", lastSeen := "2024-03-01",
    description := none, sectors := none, tools := none,
    sources := ["s4"], isEnriched := false, isValidated := false }

/-- Second entity of the C10 counterexample batch: same name as cX1 up to
case, higher confidence. -/
def cX2 : Entity :=
  { id := "id-x2", name := "x", aliases := [],
    etype := EntityType.CVE, confidenceScore := mkRat 9 10,
    firstSeen := "2024-03-02", lastSeen := "2024-03-02",
    description := none, sectors := none, tools := none,
    sources := ["s5"], isEnriched := false, isValidated := false }

/-! ## Relationship reconciliation (src/App.tsx handleIngest, step D)

const updatedIncomingRels = incomingRels.map(r => (remap source/target
through the merge map, identity when absent)).filter(r => r.source !==
r.target); const combined = [...prevRels, ...updatedIncomingRels];
const unique = Array.from(new Set(combined.map(r =>
JSON.stringify(r)))).map(s => JSON.parse(s)). -/
/-- map.get(r.source) || r.source: rewrite an endpoint through the id map,
identity when the id is absent.  (Entity ids are nonempty strings, so the
JS falsy fallback coincides with absence.) -/
def remapRel (m : List (String × String)) (r : Relationship) : Relationship :=
  { r with
    source := (mapGet? m r.source).getD r.source,
    target := (mapGet? m r.target).getD r.target }

/-- The relationship reconciliation of handleIngest.  JSON.stringify is
injective on Relationship records (all are built with the same key order),
so the stringify round-trip dedup is dedup by full record equality,
keeping first occurrences. -/
def reconcileRelationships (prevRels incomingRels : List Relationship)
    (m : List (String × String)) : List Relationship :=
  jsDedup (prevRels ++ (incomingRels.map (remapRel m)).filter
    (fun r => !(r.source == r.target)))

/-- Stored relationship for the C3 counterexample (weight 0.5). -/
def cPrevRel : Relationship :=
  { source := "a", target := "b", rtype := "CORRELATED_TO", weight := mkRat 1 2 }

/-- Incoming relationship with the same (source, target, type) triple but
weight 1. -/
def cIncRel : Relationship :=
  { source := "a", target := "b", rtype := "CORRELATED_TO", weight := mkRat 1 1 }

/-! ## processTextLocal (src/services/mlEngine.ts lines 43-159)

The four regular expressions of the source are compiled here into
deterministic matchers with JS backtracking semantics (greedy quantifiers,
longest-first backtracking, leftmost match, global exec loop that resumes
after each match).  JS character classes: \d = [0-9], \w = [A-Za-z0-9_];
\s is modelled by Char.isWhitespace (the sources only meet ASCII
whitespace). -/
/-- JS \w : [A-Za-z0-9_]. -/
def isWordChar (c : Char) : Bool :=
  c.isAlphanum || c == '_'

/-- Character class [a-z0-9] under the regex i flag. -/
def isAlnumChar (c : Char) : Bool :=
  c.isAlphanum

/-- Character class [a-z0-9-] under the regex i flag. -/
def isLabelChar (c : Char) : Bool :=
  c.isAlphanum || c == '-'

/-- JS \s (restricted to the whitespace the inputs contain). -/
def isSpaceChar (c : Char) : Bool :=
  c.isWhitespace

/-- Length of the maximal digit prefix. -/
def digitRun (cs : List Char) : Nat :=
  (cs.takeWhile Char.isDigit).length

/-- Length of the maximal [a-z0-9-] prefix. -/
def labelRun (cs : List Char) : Nat :=
  (cs.takeWhile isLabelChar).length

/-- Word-boundary test against the previous character (none at offset 0);
all uses precede a character class that only contains word characters. -/
def boundaryBefore (prev : Option Char) : Bool :=
  match prev with
  | none => true
  | some c => !(isWordChar c)

/-- The groups of /\b(?:\d{1,3}\.){3}\d{1,3}\b/: since each \d{1,3} is
followed by a literal '.', greedy matching with backtracking succeeds
exactly when each maximal digit run has length 1..3; the final run must be
followed by a non-word character or the end of input (\b). -/
def ipGroups : Nat → List Char → Option Nat
  | 0, cs =>
    let r := digitRun cs
    if 1 ≤ r ∧ r ≤ 3 then
      match cs.drop r with
      | [] => some r
      | c :: _ => if isWordChar c then none else some r
    else none
  | k + 1, cs =>
    let r := digitRun cs
    if 1 ≤ r ∧ r ≤ 3 then
      match cs.drop r with
      | c :: rest => if c == '.' then (ipGroups k rest).map (fun n => r + 1 + n) else none
      | [] => none
    else none

/-- Compiled /\b(?:\d{1,3}\.){3}\d{1,3}\b/g (PATTERNS.IP_ADDRESS). -/
def matchIPv4At (prev : Option Char) (cs : List Char) : Option Nat :=
  if boundaryBefore prev then ipGroups 3 cs else none

/-- Compiled /CVE-\d{4}-\d{4,7}/gi (PATTERNS.CVE): case-insensitive
literal, exactly four digits, a dash, then four to seven digits (greedy,
no trailing boundary). -/
def matchCVEAt (_prev : Option Char) (cs : List Char) : Option Nat :=
  if (cs.take 4).map Char.toLower = ['c', 'v', 'e', '-'] then
    let cs1 := cs.drop 4
    if (cs1.take 4).length = 4 ∧ (cs1.take 4).all Char.isDigit then
      match cs1.drop 4 with
      | c :: cs2 =>
        if c == '-' then
          let r := digitRun cs2
          if 4 ≤ r then some (4 + 4 + 1 + min 7 r) else none
        else none
      | [] => none
    else none
  else none

/-- The lengths that one domain label
[a-z0-9](?:[a-z0-9-]{0,61}[a-z0-9])? can consume at this position, in
greedy backtracking order: optional part present with its inner
[a-z0-9-]{0,61} from longest to empty, then the optional part absent. -/
def labelOptions (cs : List Char) : List Nat :=
  match cs with
  | [] => []
  | c :: rest =>
    if isAlnumChar c then
      ((List.range (min 61 (labelRun rest) + 1)).reverse.filterMap (fun j =>
        match rest.drop j with
        | d :: _ => if isAlnumChar d then some (j + 2) else none
        | [] => none))
      ++ [1]
    else []

/-- The final domain label [a-z0-9][a-z0-9-]{0,61}[a-z0-9] followed by \b,
with its own greedy backtracking. -/
def matchDomF (cs : List Char) : Option Nat :=
  match cs with
  | [] => none
  | c :: rest =>
    if isAlnumChar c then
      (List.range (min 61 (labelRun rest) + 1)).reverse.findSome? (fun j =>
        match rest.drop j with
        | d :: after =>
          if isAlnumChar d then
            match after with
            | [] => some (j + 2)
            | a :: _ => if isWordChar a then none else some (j + 2)
          else none
        | [] => none)
    else none

/-- The (?:label\.)+ loop followed by the final label: JS backtracking
prefers one more label iteration (longest label first, continuation
explored depth-first) and falls back to finishing with the final label at
the current position. -/
def matchDomTail : Nat → List Char → Option Nat
  | 0, _ => none
  | fuel + 1, cs =>
    ((labelOptions cs).findSome? (fun l =>
      match cs.drop l with
      | c :: rest =>
        if c == '.' then (matchDomTail fuel rest).map (fun n => l + 1 + n) else none
      | [] => none))
    |>.orElse (fun _ => matchDomF cs)

/-- Compiled domain pattern
/\b(?:[a-z0-9](?:[a-z0-9-]{0,61}[a-z0-9])?\.)+[a-z0-9][a-z0-9-]{0,61}[a-z0-9]\b/gi
(PATTERNS.DOMAIN): at least one dotted label, then the final label. -/
def matchDomainAt (prev : Option Char) (cs : List Char) : Option Nat :=
  if boundaryBefore prev then
    (labelOptions cs).findSome? (fun l =>
      match cs.drop l with
      | c :: rest =>
        if c == '.' then (matchDomTail cs.length rest).map (fun n => l + 1 + n) else none
      | [] => none)
  else none

/-- Option lengths for one NER word [A-Z][a-z]+ (greedy order, case-
sensitive). -/
def nerWordOptions (cs : List Char) : List Nat :=
  match cs with
  | [] => []
  | c :: rest =>
    if c.isUpper then
      (List.range ((rest.takeWhile Char.isLower).length)).reverse.map (fun k => k + 2)
    else []

/-- The suffix alternation (Group|Team|Spider|Panda|Kitten|Bear|Choillima)
in source order (no literal is a prefix of another). -/
def nerSuffixes : List (List Char) :=
  ["Group".toList, "Team".toList, "Spider".toList, "Panda".toList,
   "Kitten".toList, "Bear".toList, "Choillima".toList]

/-- One whitespace followed by the first suffix literal matching at this
position. -/
def nerSuffixAt (cs : List Char) : Option Nat :=
  match cs with
  | [] => none
  | c :: rest =>
    if isSpaceChar c then
      nerSuffixes.findSome? (fun suf =>
        if rest.take suf.length = suf then some (1 + suf.length) else none)
    else none

/-- After at least one word: greedily try another (?:\s[A-Z][a-z]+)
repetition (depth-first over inner word lengths), else match \s plus a
suffix literal here. -/
def nerTail : Nat → List Char → Option Nat
  | 0, _ => none
  | fuel + 1, cs =>
    ((match cs with
      | [] => none
      | c :: rest =>
        if isSpaceChar c then
          (nerWordOptions rest).findSome? (fun l =>
            (nerTail fuel (rest.drop l)).map (fun n => 1 + l + n))
        else none))
    |>.orElse (fun _ => nerSuffixAt cs)

/-- Compiled /([A-Z][a-z]+(?:\s[A-Z][a-z]+)*)\s(Group|Team|Spider|Panda|Kitten|Bear|Choillima)/g:
first word options longest-first, rest via nerTail. -/
def matchNERAt (_prev : Option Char) (cs : List Char) : Option Nat :=
  (nerWordOptions cs).findSome? (fun l =>
    (nerTail cs.length (cs.drop l)).map (fun n => l + n))

/-- The exec loop of a global regex: find the leftmost match at or after
the current position, record (matched text, offset), resume after the
match.  Every pattern used here consumes at least one character. -/
def scanAux (matchAt : Option Char → List Char → Option Nat) :
    Nat → Option Char → List Char → Nat → List (String × Nat)
  | 0, _, _, _ => []
  | fuel + 1, prev, cs, pos =>
    match matchAt prev cs with
    | some (len + 1) =>
      (String.mk (cs.take (len + 1)), pos)
        :: scanAux matchAt fuel (cs.get? len) (cs.drop (len + 1)) (pos + len + 1)
    | _ =>
      match cs with
      | [] => []
      | c :: rest => scanAux matchAt fuel (some c) rest (pos + 1)

/-- regex.exec in a while loop over the whole text. -/
def execRegex (matchAt : Option Char → List Char → Option Nat) (text : String) :
    List (String × Nat) :=
  scanAux matchAt (text.toList.length + 1) none text.toList 0

/-- JS String.indexOf restricted to list-of-character needles. -/
def indexOfSub : List Char → List Char → Option Nat
  | hay, needle =>
    if needle.isPrefixOf hay then some 0
    else
      match hay with
      | [] => none
      | _ :: rest => (indexOfSub rest needle).map (· + 1)

/-- KNOWN_ACTORS seed list of mlEngine.ts. -/
def KNOWN_ACTORS : List String :=
  ["APT28", "Lazarus", "Fancy Bear", "Cozy Bear", "Sandworm",
   "Equation Group", "OilRig", "MuddyWater", "Kimsuky", "DarkSide"]

/-- KNOWN_MALWARE seed list of mlEngine.ts. -/
def KNOWN_MALWARE : List String :=
  ["Emotet", "Trickbot", "Cobalt Strike", "Mimikatz", "Ryuk",
   "WannaCry", "Pegasus", "Manuscrypt", "AppleJeus"]

/-- The false-positive filter applied to DOMAIN matches: reject names
ending in .png or .jpg, shorter than 4 characters, or without a dot
(endsWith / length / includes on the lowercased match, expressed over the
character list). -/
def domainFilterOK (s : String) : Bool :=
  let d := (lowerStr s).toList
  !(List.isSuffixOf ".png".toList d) && !(List.isSuffixOf ".jpg".toList d)
    && !(decide (d.length < 4)) && d.contains '.'

/-- Pass A, IP addresses: confidence 0.95. -/
def ipCandidates (text : String) : List ExtractionCandidate :=
  (execRegex matchIPv4At text).map (fun p =>
    { name := p.1, ctype := EntityType.IP_ADDRESS, confidence := mkRat 19 20, index := p.2 })

/-- Pass A, CVEs: confidence 0.95. -/
def cveCandidates (text : String) : List ExtractionCandidate :=
  (execRegex matchCVEAt text).map (fun p =>
    { name := p.1, ctype := EntityType.CVE, confidence := mkRat 19 20, index := p.2 })

/-- Pass A, domains: filter, then confidence 0.95. -/
def domainCandidates (text : String) : List ExtractionCandidate :=
  ((execRegex matchDomainAt text).filter (fun p => domainFilterOK p.1)).map (fun p =>
    { name := p.1, ctype := EntityType.DOMAIN, confidence := mkRat 19 20, index := p.2 })

/-- Pass B, known actors: case-insensitive substring search, first
occurrence offset, candidate name is the seed-list spelling. -/
def actorCandidates (text : String) : List ExtractionCandidate :=
  KNOWN_ACTORS.filterMap (fun actor =>
    (indexOfSub (lowerStr text).toList (lowerStr actor).toList).map (fun idx =>
      { name := actor, ctype := EntityType.THREAT_ACTOR, confidence := mkRat 9 10, index := idx }))

/-- Pass B, known malware. -/
def malwareCandidates (text : String) : List ExtractionCandidate :=
  KNOWN_MALWARE.filterMap (fun mal =>
    (indexOfSub (lowerStr text).toList (lowerStr mal).toList).map (fun idx =>
      { name := mal, ctype := EntityType.MALWARE, confidence := mkRat 9 10, index := idx }))

/-- Pass C, heuristic NER: the matched phrase, offset via indexOf of the
matched text (the source looks the matched string up again). -/
def nerCandidates (text : String) : List ExtractionCandidate :=
  (execRegex matchNERAt text).filterMap (fun p =>
    (indexOfSub text.toList p.1.toList).map (fun idx =>
      { name := p.1, ctype := EntityType.THREAT_ACTOR, confidence := mkRat 3 4, index := idx }))

/-- All extraction candidates in source push order. -/
def candidatesOf (text : String) : List ExtractionCandidate :=
  ipCandidates text ++ cveCandidates text ++ domainCandidates text
    ++ actorCandidates text ++ malwareCandidates text ++ nerCandidates text

/-- Deterministic fresh-identifier supply modelling crypto.randomUUID:
the k-th created entity gets a distinct opaque string. -/
def freshId (k : Nat) : String :=
  String.mk ('e' :: List.replicate k 'x')

/-- The entity created for the first candidate of a new lowercased-name
key (step D of processTextLocal). -/
def mkExtractedEntity (sourceId timestamp : String) (c : ExtractionCandidate)
    (k : Nat) : Entity :=
  { id := freshId k, name := c.name, aliases := [], etype := c.ctype,
    confidenceScore := c.confidence, firstSeen := timestamp,
    lastSeen := timestamp,
    description := some "Extracted via internal engine heuristics.",
    sectors := none, tools := none, sources := [sourceId],
    isEnriched := false, isValidated := false }

/-- The uniqueMap fold of step D: keyed by lowercased candidate name, the
first candidate for a key creates the entity, later candidates with the
same key are ignored; values() preserves insertion order. -/
def buildEntitiesAux (sourceId timestamp : String) :
    List ExtractionCandidate → List Entity → List Entity
  | [], acc => acc
  | c :: cs, acc =>
    if acc.any (fun e => lowerStr e.name == lowerStr c.name) then
      buildEntitiesAux sourceId timestamp cs acc
    else
      buildEntitiesAux sourceId timestamp cs
        (acc ++ [mkExtractedEntity sourceId timestamp c acc.length])

/-- Array.from(uniqueMap.values()). -/
def buildEntities (sourceId timestamp : String)
    (cands : List ExtractionCandidate) : List Entity :=
  buildEntitiesAux sourceId timestamp cands []

/-- entityList.find(e => e.name.toLowerCase() === c.name.toLowerCase()). -/
def entityFor (ents : List Entity) (c : ExtractionCandidate) : Option Entity :=
  ents.find? (fun e => lowerStr e.name == lowerStr c.name)

/-- Math.abs(c1.index - c2.index). -/
def natDist (a b : Nat) : Nat :=
  if a ≤ b then b - a else a - b

/-- One iteration of the inner loop of step E: skip pairs of equal types,
require index distance below the 350 window, emit CORRELATED_TO with
weight 0.5 when both entities resolve. -/
def corrPair (ents : List Entity) (c1 c2 : ExtractionCandidate) :
    List Relationship :=
  if c1.ctype == c2.ctype then []
  else if natDist c1.index c2.index < 350 then
    match entityFor ents c1, entityFor ents c2 with
    | some e1, some e2 =>
      [{ source := e1.id, target := e2.id, rtype := "CORRELATED_TO",
         weight := mkRat 1 2 }]
    | _, _ => []
  else []

/-- Inner loop of step E: pair the fixed candidate c1 with each later
candidate. -/
def corrOne (ents : List Entity) (c1 : ExtractionCandidate) :
    List ExtractionCandidate → List Relationship
  | [] => []
  | c2 :: rest => corrPair ents c1 c2 ++ corrOne ents c1 rest

/-- Outer loop of step E over ordered candidate pairs (i < j). -/
def corrRels (ents : List Entity) : List ExtractionCandidate → List Relationship
  | [] => []
  | c :: cs => corrOne ents c cs ++ corrRels ents cs

/-- processTextLocal: candidates, deduplicated entities, proximity
relationships.  timestamp is the new Date().toISOString() environment
input. -/
def processTextLocal (text sourceId timestamp : String) :
    List Entity × List Relationship :=
  let cands := candidatesOf text
  let ents := buildEntities sourceId timestamp cands
  (ents, corrRels ents cands)

/-! ## The TQL interpreter (src/components/ThreatQuery.tsx runQuery)

The top-level lexer regex
FROM\s+(\w+)(?:\s+WHERE\s+(.+?))?(?:\s+SHOW\s+(.+))?$ splits a query into
the target type word, the WHERE clause text and the SHOW clause text;
the interpreter below starts from that lexed triple.  String helpers
(trim, split, indexOf) are modelled over character lists. -/
/-- JS String.prototype.trim. -/
def trimStr (s : String) : String :=
  String.mk (((s.toList.dropWhile isSpaceChar).reverse.dropWhile isSpaceChar).reverse)

/-- JS String.prototype.split with a single-character separator. -/
def splitOnCharAux (sep : Char) : Nat → List Char → List Char → List String
  | 0, acc, rest => [String.mk (acc.reverse ++ rest)]
  | _ + 1, acc, [] => [String.mk acc.reverse]
  | fuel + 1, acc, c :: cs =>
    if c == sep then String.mk acc.reverse :: splitOnCharAux sep fuel [] cs
    else splitOnCharAux sep fuel (c :: acc) cs

/-- JS s.split(sep) for a one-character separator. -/
def splitOnChar (sep : Char) (s : String) : List String :=
  splitOnCharAux sep (s.toList.length + 1) [] s.toList

/-- Try to match the separator regex \s+AND\s+ (case-insensitive) at this
position; returns the remainder after the separator. -/
def matchAndSep (cs : List Char) : Option (List Char) :=
  let sp := cs.takeWhile isSpaceChar
  if sp.length = 0 then none
  else
    match cs.drop sp.length with
    | a :: n :: d :: rest =>
      if a.toLower == 'a' && n.toLower == 'n' && d.toLower == 'd' then
        let sp2 := rest.takeWhile isSpaceChar
        if sp2.length = 0 then none else some (rest.drop sp2.length)
      else none
    | _ => none

/-- whereClause.split(/\s+AND\s+/i): scan for separators left to right. -/
def splitAndAux : Nat → List Char → List Char → List String
  | 0, acc, rest => [String.mk (acc.reverse ++ rest)]
  | _ + 1, acc, [] => [String.mk acc.reverse]
  | fuel + 1, acc, c :: cs =>
    match matchAndSep (c :: cs) with
    | some rest2 => String.mk acc.reverse :: splitAndAux fuel [] rest2
    | none => splitAndAux fuel (c :: acc) cs

/-- whereClause.split(/\s+AND\s+/i). -/
def splitAnd (s : String) : List String :=
  splitAndAux (s.toList.length + 1) [] s.toList

/-- The operator alternation (==|!=|>|<|CONTAINS) of the condition
pattern, in source order; CONTAINS is case-insensitive (i flag) and the
matched text is returned case-preserved. -/
def tryOps (cs : List Char) : Option (String × List Char) :=
  if cs.take 2 = ['=', '='] then some ("==", cs.drop 2)
  else if cs.take 2 = ['!', '='] then some ("!=", cs.drop 2)
  else if cs.take 1 = ['>'] then some (">", cs.drop 1)
  else if cs.take 1 = ['<'] then some ("<", cs.drop 1)
  else if (cs.take 8).map Char.toLower = "contains".toList then
    some (String.mk (cs.take 8), cs.drop 8)
  else none

/-- The value part after the operator, matching the regex tail of spaces
then at least one character: the space run is greedy but backs off so the
value can start (a dot never matches a line terminator); the value runs to
the first line terminator. -/
def condValue (tail : List Char) : Option (List Char) :=
  (List.range ((tail.takeWhile isSpaceChar).length + 1)).reverse.findSome? (fun k =>
    match tail.drop k with
    | [] => none
    | c :: _ =>
      if c == '\n' || c == '\r' then none
      else some ((tail.drop k).takeWhile (fun c2 => !(c2 == '\n') && !(c2 == '\r'))))

/-- The condition pattern (\w+)\s*(==|!=|>|<|CONTAINS)\s*(.+) anchored at
this position: field word greedy with backtracking, spaces, operator,
value. -/
def parseCondFrom (cs : List Char) : Option (String × String × String) :=
  let w := (cs.takeWhile isWordChar).length
  if w = 0 then none
  else
    (List.range w).reverse.findSome? (fun j =>
      let flen := j + 1
      let rest2 := (cs.drop flen).dropWhile isSpaceChar
      match tryOps rest2 with
      | none => none
      | some (op, tail) =>
        (condValue tail).map (fun v => (String.mk (cs.take flen), op, String.mk v)))

/-- cond.match over all start positions (leftmost match wins). -/
def parseCondAux : List Char → Option (String × String × String)
  | [] => none
  | c :: cs =>
    match parseCondFrom (c :: cs) with
    | some r => some r
    | none => parseCondAux cs

/-- cond.match(/(\w+)\s*(==|!=|>|<|CONTAINS)\s*(.+)/i). -/
def parseCond (s : String) : Option (String × String × String) :=
  parseCondAux s.toList

/-- Digit-list to natural number. -/
def digitsToNat (l : List Char) : Nat :=
  l.foldl (fun acc c => 10 * acc + (c.toNat - '0'.toNat)) 0

/-- JS parseFloat restricted to sign, integer part and fraction part
(exponents and special values are not exercised by any query in the
claims); none models NaN. -/
def jsParseFloat (s : String) : Option ℚ :=
  let cs := s.toList.dropWhile isSpaceChar
  let neg : Bool := match cs with | '-' :: _ => true | _ => false
  let cs1 : List Char := match cs with
    | '-' :: r => r
    | '+' :: r => r
    | _ => cs
  let ip := cs1.takeWhile Char.isDigit
  let cs2 := cs1.drop ip.length
  let fp : List Char := match cs2 with
    | c :: r => if c == '.' then r.takeWhile Char.isDigit else []
    | [] => []
  if ip.length = 0 ∧ fp.length = 0 then none
  else
    let mag : ℚ :=
      mkRat (digitsToNat ip * 10 ^ fp.length + digitsToNat fp) (10 ^ fp.length)
    some (if neg then -mag else mag)

/-- substring test: hay.includes(needle). -/
def substrB (needle hay : String) : Bool :=
  (indexOfSub hay.toList needle.toList).isSome

/-- Rendering of a JS number in the generic string branch; the exact
decimal formatting is approximated (no claim exercises it). -/
def jsNumToString (q : ℚ) : String :=
  if q.den = 1 then toString q.num else toString q.num ++ "/" ++ toString q.den

/-- Number.prototype.toFixed(0): round to the nearest integer, ties toward
the larger value, i.e. floor(q + 1/2). -/
def jsToFixed0 (q : ℚ) : String :=
  toString (Int.fdiv (2 * q.num + (q.den : ℤ)) (2 * (q.den : ℤ)))

/-- The dynamically-typed value of (entity as any)[field]. -/
inductive FieldVal where
  | str (s : String)
  | num (q : ℚ)
  | arr (l : List String)
  | bool (b : Bool)
  | missing

/-- Dynamic field access on an Entity by field name (case-sensitive, as in
JS property lookup). -/
def getField (e : Entity) (field : String) : FieldVal :=
  if field == "id" then .str e.id
  else if field == "name" then .str e.name
  else if field == "aliases" then .arr e.aliases
  else if field == "type" then .str (typeStr e.etype)
  else if field == "confidenceScore" then .num e.confidenceScore
  else if field == "firstSeen" then .str e.firstSeen
  else if field == "lastSeen" then .str e.lastSeen
  else if field == "description" then
    match e.description with
    | some d => .str d
    | none => .missing
  else if field == "sectors" then
    match e.sectors with
    | some l => .arr l
    | none => .missing
  else if field == "tools" then
    match e.tools with
    | some l => .arr l
    | none => .missing
  else if field == "sources" then .arr e.sources
  else if field == "isEnriched" then .bool e.isEnriched
  else if field == "isValidated" then .bool e.isValidated
  else .missing

/-- String(entityVal || '') for the non-array compare branch. -/
def fieldValToString : FieldVal → String
  | .str s => s
  | .num q => if q == 0 then "" else jsNumToString q
  | .arr _ => ""
  | .bool b => if b then "true" else ""
  | .missing => ""

/-- The compare helper of runQuery on numbers; none models NaN (==, >, <
against NaN are false, != is true), CONTAINS falls back to the string
rendering as in JS. -/
def compareNum (a : ℚ) (op : String) (b : Option ℚ) : Bool :=
  if op == "==" then match b with | some v => a == v | none => false
  else if op == "!=" then match b with | some v => !(a == v) | none => true
  else if op == ">" then match b with | some v => decide (v < a) | none => false
  else if op == "<" then match b with | some v => decide (a < v) | none => false
  else if op == "CONTAINS" then
    substrB (match b with | some v => jsNumToString v | none => "NaN") (jsNumToString a)
  else false

/-- The compare helper of runQuery on strings (both sides already
lowercased by the caller). -/
def compareStr (a op b : String) : Bool :=
  if op == "==" then a == b
  else if op == "!=" then !(a == b)
  else if op == ">" then decide (b < a)
  else if op == "<" then decide (a < b)
  else if op == "CONTAINS" then substrB b a
  else false

/-- val.replace(/['"]/g, ''). -/
def stripQuotes (s : String) : String :=
  String.mk (s.toList.filter (fun c => !(c == '\'') && !(c == '"')))

/-- One WHERE condition evaluated against an entity: malformed conditions
are true; the field "confidence" (case-insensitive) is special-cased with
the percentage division; array fields only support CONTAINS; everything
else compares as lowercased strings. -/
def evalCond (e : Entity) (cond : String) : Bool :=
  match parseCond cond with
  | none => true
  | some (field, op, valRaw) =>
    let val := trimStr (stripQuotes valRaw)
    if lowerStr field == "confidence" then
      let numVal := jsParseFloat val
      let numVal2 : Option ℚ := match numVal with
        | some v => if decide ((1 : ℚ) < v) then some (v / 100) else some v
        | none => none
      compareNum e.confidenceScore op numVal2
    else
      match getField e field with
      | .arr l =>
        if upperStr op == "CONTAINS" then
          l.any (fun v => substrB (lowerStr val) (lowerStr v))
        else false
      | fv => compareStr (lowerStr (fieldValToString fv)) op (lowerStr val)

/-- The lexed query: target type word, optional WHERE text, optional SHOW
text. -/
structure TQLParts where
  target : String
  whereClause : Option String
  showClause : Option String

/-- One result row: the fixed columns id, Type, Name, Confidence plus the
SHOW columns in order. -/
structure QueryRow where
  rid : String
  typeCol : String
  nameCol : String
  confidenceCol : String
  cols : List (String × String)

/-- Array.prototype.join(sep). -/
def joinSep (sep : String) : List String → String
  | [] => ""
  | [x] => x
  | x :: xs => x ++ sep ++ joinSep sep xs

/-- One SHOW column for one entity: entity-type identifiers (optionally
pluralised with a trailing S) and the literals MALWARE / TOOLS pivot over
relationships to neighbour names; SECTORS and SOURCES project the
entity's own attributes; anything else adds nothing. -/
def showCol (entities : List Entity) (rels : List Relationship) (e : Entity)
    (field : String) : List (String × String) :=
  let relatedType := entityTypeValues.find?
    (fun t => typeStr t == field || typeStr t ++ "S" == field)
  if relatedType.isSome || field == "MALWARE" || field == "TOOLS" then
    let related := ((((rels.filter (fun r => r.source == e.id || r.target == e.id)).filterMap
        (fun r => entities.find? (fun e2 =>
          e2.id == (if r.source == e.id then r.target else r.source)))).filter
        (fun e2 => some e2.etype == relatedType
          || (field == "TOOLS" && e2.etype == EntityType.MALWARE))).map
        (fun e2 => e2.name))
    [(field, if 0 < related.length then joinSep ", " related else "-")]
  else if field == "SECTORS" then
    [("Sectors",
      match e.sectors with
      | none => "-"
      | some l => if joinSep ", " l == "" then "-" else joinSep ", " l)]
  else if field == "SOURCES" then
    [("Source Count", toString e.sources.length)]
  else []

/-- The row built for one filtered entity. -/
def mkRow (entities : List Entity) (rels : List Relationship)
    (showClause : Option String) (e : Entity) : QueryRow :=
  { rid := e.id, typeCol := typeStr e.etype, nameCol := e.name,
    confidenceCol := jsToFixed0 (e.confidenceScore * 100) ++ "%",
    cols := match showClause with
      | none => []
      | some sc =>
        ((splitOnChar ',' sc).map (fun s => upperStr (trimStr s))).foldl
          (fun acc f => acc ++ showCol entities rels e f) [] }

/-- runQuery after lexing: resolve the target type (error listing the
valid types when unknown and not ALL), filter by type then by the AND-split
WHERE conditions, and project one row per remaining entity in order. -/
def runTQL (q : TQLParts) (entities : List Entity) (rels : List Relationship) :
    Except String (List QueryRow) :=
  let targetUp := upperStr q.target
  let targetType := entityTypeValues.find? (fun t => typeStr t == targetUp)
  let isAll := targetUp == "ALL"
  if targetType.isNone && !isAll then
    Except.error ("Unknown Entity Type: " ++ q.target ++ ". Valid types: "
      ++ joinSep ", " (entityTypeValues.map typeStr))
  else
    let filtered := entities.filter (fun e => isAll || targetType == some e.etype)
    let filtered2 := match q.whereClause with
      | none => filtered
      | some w => filtered.filter (fun e => (splitAnd w).all (fun c => evalCond e c))
    Except.ok (filtered2.map (mkRow entities rels q.showClause))

/-- The lexed form of "FROM THREAT_ACTOR WHERE confidence > 50" under the
top-level pattern. -/
def queryConfidence50 : TQLParts :=
  { target := "THREAT_ACTOR", whereClause := some "confidence > 50",
    showClause := none }

/-- The lexed form of "FROM ALL SHOW SECTORS" under the top-level
pattern. -/
def queryAllShowSectors : TQLParts :=
  { target := "ALL", whereClause := none, showClause := some "SECTORS" }

/-- The Sectors column value as the amended claim states it: the
comma-joined sector list when that join is nonempty, "-" otherwise (in
particular for the empty and the missing list). -/
def sectorsColumnSpec (e : Entity) : String :=
  if joinSep ", " (e.sectors.getD []) = "" then "-"
  else joinSep ", " (e.sectors.getD [])

/-- Entity whose sectors list is [""]: nonempty, but its comma-join is the
empty string. -/
def cSectorEntity : Entity :=
  { id := "id-sec", name := "S", aliases := [],
    etype := EntityType.ORGANIZATION, confidenceScore := mkRat 1 1,
    firstSeen := "2024-01-01", lastSeen := "2024-01-01",
    description := none, sectors := some [""], tools := none,
    sources := ["s1"], isEnriched := false, isValidated := false }

/-! ## Lemmas, claims, counterexamples and witnesses -/

theorem mem_jsDedupAux {α : Type} [DecidableEq α] (x : α) :
    ∀ (l seen : List α), x ∈ jsDedupAux seen l ↔ x ∈ l ∧ x ∉ seen := by
  intro l
  induction l with
  | nil => intro seen; simp [jsDedupAux]
  | cons y ys ih =>
    intro seen
    simp only [jsDedupAux]
    by_cases hy : y ∈ seen
    · simp only [if_pos hy, ih]
      constructor
      · rintro ⟨hx, hns⟩; exact ⟨List.mem_cons_of_mem _ hx, hns⟩
      · rintro ⟨hx, hns⟩
        rcases List.mem_cons.mp hx with rfl | hx
        · exact absurd hy hns
        · exact ⟨hx, hns⟩
    · simp only [if_neg hy, List.mem_cons, ih]
      by_cases hxy : x = y
      · subst hxy; tauto
      · tauto

theorem mem_jsDedup {α : Type} [DecidableEq α] (x : α) (l : List α) :
    x ∈ jsDedup l ↔ x ∈ l := by
  simp [jsDedup, mem_jsDedupAux]

theorem nodup_jsDedupAux {α : Type} [DecidableEq α] :
    ∀ (l seen : List α), (jsDedupAux seen l).Nodup := by
  intro l
  induction l with
  | nil => intro seen; simp [jsDedupAux]
  | cons y ys ih =>
    intro seen
    simp only [jsDedupAux]
    by_cases hy : y ∈ seen
    · simpa [hy] using ih seen
    · simp only [if_neg hy, List.nodup_cons]
      refine ⟨?_, ih (y :: seen)⟩
      intro hc
      exact ((mem_jsDedupAux y ys (y :: seen)).mp hc).2 (List.mem_cons_self _ _)

theorem nodup_jsDedup {α : Type} [DecidableEq α] (l : List α) :
    (jsDedup l).Nodup :=
  nodup_jsDedupAux l []

theorem getSimilarity_eq_div (a b : String) :
    getSimilarity a b =
      ((charSet a ∩ charSet b).card : ℚ) / ((charSet a ∪ charSet b).card : ℚ) := by
  unfold getSimilarity
  rw [Rat.mkRat_eq_div]
  push_cast
  rfl

theorem getSimilarity_comm (a b : String) :
    getSimilarity a b = getSimilarity b a := by
  unfold getSimilarity
  rw [Finset.inter_comm, Finset.union_comm]

theorem charSet_nonempty_of_ne_empty {a : String} (h : a ≠ "") :
    (charSet a).Nonempty := by
  have hdata : a.toList ≠ [] := by
    intro hc
    apply h
    cases a with
    | mk data =>
      simp only [String.toList] at hc
      subst hc
      rfl
  cases hl : a.toList with
  | nil => exact absurd hl hdata
  | cons c cs =>
    refine ⟨c.toLower, ?_⟩
    unfold charSet
    rw [hl]
    simp [List.mem_toFinset]

theorem getSimilarity_self {a : String} (h : a ≠ "") :
    getSimilarity a a = 1 := by
  rw [getSimilarity_eq_div, Finset.inter_self, Finset.union_self]
  have hpos : 0 < (charSet a).card :=
    Finset.card_pos.mpr (charSet_nonempty_of_ne_empty h)
  have hne : ((charSet a).card : ℚ) ≠ 0 := by
    exact_mod_cast Nat.pos_iff_ne_zero.mp hpos
  exact div_self hne

/-- C7 counterexample: the claim asserts getSimilarity(a, a) == 1 for every
string a, but for the empty string the source divides 0 by 0 (NaN in JS,
0 in this embedding); in both semantics the result is not 1. -/
theorem similarity_empty_string_not_one :
    getSimilarity "" "" ≠ 1 := by
  decide

/-- C7 (amended): getSimilarity is symmetric for all pairs of strings, and
getSimilarity(a, a) = 1 for every nonempty string a; for the empty string
the Jaccard quotient is 0/0 and is not 1. -/
theorem similarity_symm_and_refl_on_nonempty :
    (∀ a b : String, getSimilarity a b = getSimilarity b a)
    ∧ (∀ a : String, a ≠ "" → getSimilarity a a = 1) :=
  ⟨getSimilarity_comm, fun _ h => getSimilarity_self h⟩

/-- Witness for C7 at concrete inputs. -/
theorem similarity_refl_witness :
    getSimilarity "APT28" "APT28" = 1 ∧ "APT28" ≠ "" :=
  ⟨similarity_symm_and_refl_on_nonempty.2 "APT28" (by decide), by decide⟩

/-! ### Properties of updateFirst and the merge step -/
theorem frameEq_refl (a : Entity) : frameEq a a := rfl

theorem frameEq_mergeUpdate (m n : Entity) : frameEq (mergeUpdate m n) m := rfl

theorem frameEq_name {a b : Entity} (h : frameEq a b) : a.name = b.name :=
  congrArg (fun t => t.2.1) h

theorem frameEq_etype {a b : Entity} (h : frameEq a b) : a.etype = b.etype :=
  congrArg (fun t => t.2.2.1) h

theorem frameEq_aliases {a b : Entity} (h : frameEq a b) : a.aliases = b.aliases :=
  congrArg (fun t => t.2.2.2.2.1) h

theorem frameEq_sectors {a b : Entity} (h : frameEq a b) : a.sectors = b.sectors :=
  congrArg (fun t => t.2.2.2.2.2.1) h

theorem frameEq_tools {a b : Entity} (h : frameEq a b) : a.tools = b.tools :=
  congrArg (fun t => t.2.2.2.2.2.2.1) h

theorem forall₂_frameEq_refl : ∀ l : List Entity, List.Forall₂ frameEq l l
  | [] => List.Forall₂.nil
  | x :: xs => List.Forall₂.cons (frameEq_refl x) (forall₂_frameEq_refl xs)

theorem forall₂_frameEq_trans :
    ∀ {l1 l2 l3 : List Entity}, List.Forall₂ frameEq l1 l2 →
      List.Forall₂ frameEq l2 l3 → List.Forall₂ frameEq l1 l3 := by
  intro l1 l2 l3 h1
  induction h1 generalizing l3 with
  | nil => intro h2; cases h2; exact List.Forall₂.nil
  | cons hab htail ih =>
    intro h2
    cases h2 with
    | cons hbc h2tail => exact List.Forall₂.cons (hab.trans hbc) (ih h2tail)

theorem forall₂_frameEq_append :
    ∀ {a b c d : List Entity}, List.Forall₂ frameEq a b →
      List.Forall₂ frameEq c d → List.Forall₂ frameEq (a ++ c) (b ++ d) := by
  intro a b c d h1 h2
  induction h1 with
  | nil => simpa using h2
  | cons hab htail ih => exact List.Forall₂.cons hab ih

theorem forall₂_frameEq_exists_of_mem :
    ∀ {l' l : List Entity}, List.Forall₂ frameEq l' l →
      ∀ {e}, e ∈ l → ∃ e', e' ∈ l' ∧ frameEq e' e := by
  intro l' l h
  induction h with
  | nil => intro e he; simp at he
  | cons hab htail ih =>
    intro e he
    rcases List.mem_cons.mp he with rfl | he
    · exact ⟨_, List.mem_cons_self _ _, hab⟩
    · rcases ih he with ⟨e', he', hfe⟩
      exact ⟨e', List.mem_cons_of_mem _ he', hfe⟩

theorem forall₂_frameEq_get?_proj {γ : Type} (proj : Entity → γ)
    (hproj : ∀ a b, frameEq a b → proj a = proj b) :
    ∀ {l l' : List Entity}, List.Forall₂ frameEq l l' →
      ∀ i, (l.get? i).map proj = (l'.get? i).map proj := by
  intro l l' h
  induction h with
  | nil => intro i; rfl
  | cons hab htail ih =>
    intro i
    cases i with
    | zero => simp [hproj _ _ hab]
    | succ j => simpa using ih j

theorem forall₂_frameEq_set :
    ∀ (l : List Entity) (i : Nat) (m e' : Entity),
      l.get? i = some m → frameEq e' m → List.Forall₂ frameEq (l.set i e') l
  | [], i, m, e', h, _ => by simp at h
  | x :: xs, 0, m, e', h, he => by
    simp only [List.get?] at h
    cases h
    exact List.Forall₂.cons he (forall₂_frameEq_refl xs)
  | x :: xs, i + 1, m, e', h, he => by
    simp only [List.get?] at h
    exact List.Forall₂.cons (frameEq_refl x) (forall₂_frameEq_set xs i m e' h he)

theorem updateFirst_none_iff (p : Entity → Bool) (f : Entity → Entity) :
    ∀ l : List Entity, updateFirst p f l = none ↔ ∀ e ∈ l, p e = false := by
  intro l
  induction l with
  | nil => simp [updateFirst]
  | cons x xs ih =>
    simp only [updateFirst]
    by_cases hx : p x
    · simp [hx]
    · simp only [if_neg hx, Option.map_eq_none', ih, List.mem_cons]
      constructor
      · rintro hall e (rfl | he)
        · exact Bool.of_not_eq_true hx
        · exact hall e he
      · intro hall e he
        exact hall e (Or.inr he)

theorem updateFirst_map_snd (p : Entity → Bool) (f : Entity → Entity) :
    ∀ l : List Entity, (updateFirst p f l).map Prod.snd = l.find? p := by
  intro l
  induction l with
  | nil => simp [updateFirst, List.find?]
  | cons x xs ih =>
    simp only [updateFirst, List.find?]
    by_cases hx : p x
    · simp [hx]
    · simp only [Bool.not_eq_true] at hx
      simp only [hx, if_neg (by simp [hx] : ¬ (p x = true))]
      rw [← ih]
      cases updateFirst p f xs <;> simp

theorem updateFirst_some_set (p : Entity → Bool) (f : Entity → Entity) :
    ∀ (l l' : List Entity) (m : Entity), updateFirst p f l = some (l', m) →
      p m = true ∧ ∃ i, l.get? i = some m ∧ l' = l.set i (f m) := by
  intro l
  induction l with
  | nil => intro l' m h; simp [updateFirst] at h
  | cons x xs ih =>
    intro l' m h
    simp only [updateFirst] at h
    by_cases hx : p x
    · rw [if_pos hx] at h
      have h' := Option.some.inj h
      have hl' : l' = f x :: xs := (congrArg Prod.fst h').symm
      have hm : m = x := (congrArg Prod.snd h').symm
      subst hm
      exact ⟨hx, 0, rfl, by simp [hl']⟩
    · rw [if_neg hx] at h
      cases hrec : updateFirst p f xs with
      | none => rw [hrec] at h; simp at h
      | some r =>
        rw [hrec] at h
        simp only [Option.map_some'] at h
        have h' := Option.some.inj h
        have hl' : l' = x :: r.1 := (congrArg Prod.fst h').symm
        have hm : m = r.2 := (congrArg Prod.snd h').symm
        rcases ih r.1 r.2 (by rw [hrec]) with ⟨hp, i, hget, hset⟩
        subst hm
        exact ⟨hp, i + 1, hget, by simp [hl', hset]⟩

theorem updateFirst_isSome_of_exists (p : Entity → Bool) (f : Entity → Entity)
    (l : List Entity) (h : ∃ e ∈ l, p e = true) :
    ∃ r, updateFirst p f l = some r := by
  cases hu : updateFirst p f l with
  | some r => exact ⟨r, rfl⟩
  | none =>
    rcases h with ⟨e, he, hp⟩
    have := (updateFirst_none_iff p f l).mp hu e he
    rw [hp] at this
    exact absurd this (by simp)

theorem mergeStep_shape (res : List Entity) (idMap : List (String × String)) (n : Entity) :
    (List.Forall₂ frameEq (mergeStep (res, idMap) n).1 res
      ∧ (mergeStep (res, idMap) n).1.length = res.length)
    ∨ (mergeStep (res, idMap) n).1 = res ++ [n] := by
  unfold mergeStep
  cases hu : updateFirst (exactPred n) (fun m => mergeUpdate m n) res with
  | some r =>
    left
    rcases updateFirst_some_set _ _ res r.1 r.2 (by rw [hu]) with ⟨_, i, hget, hset⟩
    constructor
    · exact hset ▸ forall₂_frameEq_set res i r.2 (mergeUpdate r.2 n) hget (frameEq_mergeUpdate _ _)
    · simp [hset]
  | none =>
    by_cases hta : n.etype == EntityType.THREAT_ACTOR
    · simp only [hta, if_true]
      cases hf : updateFirst (fuzzyPred n) (fun m => mergeUpdate m n) res with
      | some r =>
        left
        rcases updateFirst_some_set _ _ res r.1 r.2 (by rw [hf]) with ⟨_, i, hget, hset⟩
        constructor
        · exact hset ▸ forall₂_frameEq_set res i r.2 (mergeUpdate r.2 n) hget (frameEq_mergeUpdate _ _)
        · simp [hset]
      | none => right; rfl
    · simp only [hta, if_false]
      right; rfl

theorem mergeStep_no_append (res : List Entity) (idMap : List (String × String))
    (n : Entity) (h : matchable res n) :
    List.Forall₂ frameEq (mergeStep (res, idMap) n).1 res := by
  unfold mergeStep
  cases hu : updateFirst (exactPred n) (fun m => mergeUpdate m n) res with
  | some r =>
    rcases updateFirst_some_set _ _ res r.1 r.2 (by rw [hu]) with ⟨_, i, hget, hset⟩
    exact hset ▸ forall₂_frameEq_set res i r.2 (mergeUpdate r.2 n) hget (frameEq_mergeUpdate _ _)
  | none =>
    have hnoexact := (updateFirst_none_iff _ _ res).mp hu
    rcases h with ⟨e, he, hname | ⟨hta, htype, hsim⟩⟩
    · exact absurd (hnoexact e he) (by simp [exactPred, hname])
    · have hta' : (n.etype == EntityType.THREAT_ACTOR) = true := by
        simp [hta]
      rw [hta']
      simp only [if_true]
      rcases updateFirst_isSome_of_exists (fuzzyPred n) (fun m => mergeUpdate m n) res
          ⟨e, he, by simp [fuzzyPred, htype, hsim]⟩ with ⟨r, hr⟩
      rw [hr]
      rcases updateFirst_some_set _ _ res r.1 r.2 (by rw [hr]) with ⟨_, i, hget, hset⟩
      exact hset ▸ forall₂_frameEq_set res i r.2 (mergeUpdate r.2 n) hget (frameEq_mergeUpdate _ _)

theorem mem_set_of_get? {l : List Entity} {i : Nat} {m e' : Entity}
    (h : l.get? i = some m) : e' ∈ l.set i e' := by
  induction l generalizing i with
  | nil => simp at h
  | cons x xs ih =>
    cases i with
    | zero => simp [List.set]
    | succ j =>
      simp only [List.get?] at h
      simp only [List.set, List.mem_cons]
      exact Or.inr (ih h)

theorem matchable_of_pred {l : List Entity} {n e : Entity} (he : e ∈ l)
    (h : exactPred n e = true ∨ (n.etype = EntityType.THREAT_ACTOR ∧ fuzzyPred n e = true)) :
    matchable l n := by
  rcases h with h | ⟨hta, h⟩
  · refine ⟨e, he, Or.inl ?_⟩
    simpa [exactPred] using h
  · refine ⟨e, he, Or.inr ⟨hta, ?_, ?_⟩⟩
    · have := (Bool.and_eq_true _ _).mp h |>.1
      simpa using this
    · have := (Bool.and_eq_true _ _).mp h |>.2
      simpa using this

theorem mergeStep_matchable_self (res : List Entity) (idMap : List (String × String))
    (n : Entity) : matchable (mergeStep (res, idMap) n).1 n := by
  unfold mergeStep
  cases hu : updateFirst (exactPred n) (fun m => mergeUpdate m n) res with
  | some r =>
    rcases updateFirst_some_set _ _ res r.1 r.2 (by rw [hu]) with ⟨hp, i, hget, hset⟩
    refine ⟨mergeUpdate r.2 n, ?_, Or.inl ?_⟩
    · simp only [hset]
      exact mem_set_of_get? hget
    · have : lowerStr r.2.name = lowerStr n.name := by simpa [exactPred] using hp
      simpa [frameEq_name (frameEq_mergeUpdate r.2 n)] using this
  | none =>
    by_cases hta : n.etype == EntityType.THREAT_ACTOR
    · rw [if_pos hta]
      cases hf : updateFirst (fuzzyPred n) (fun m => mergeUpdate m n) res with
      | some r =>
        rcases updateFirst_some_set _ _ res r.1 r.2 (by rw [hf]) with ⟨hp, i, hget, hset⟩
        have htypes := (Bool.and_eq_true _ _).mp hp |>.1
        have hsim := (Bool.and_eq_true _ _).mp hp |>.2
        refine ⟨mergeUpdate r.2 n, ?_, Or.inr ⟨by simpa using hta, ?_, ?_⟩⟩
        · simp only [hset]
          exact mem_set_of_get? hget
        · have : r.2.etype = n.etype := by simpa using htypes
          simpa [frameEq_etype (frameEq_mergeUpdate r.2 n)] using this
        · have : mkRat 4 5 < getSimilarity r.2.name n.name := by simpa using hsim
          simpa [getSimilarity, frameEq_name (frameEq_mergeUpdate r.2 n)] using this
      | none =>
        exact ⟨n, by simp, Or.inl rfl⟩
    · rw [if_neg hta]
      exact ⟨n, by simp, Or.inl rfl⟩

theorem matchable_of_forall₂ {l' l : List Entity} (hf : List.Forall₂ frameEq l' l)
    {b : Entity} (hm : matchable l b) : matchable l' b := by
  rcases hm with ⟨e, he, hcond⟩
  rcases forall₂_frameEq_exists_of_mem hf he with ⟨e', he', hfe⟩
  refine ⟨e', he', ?_⟩
  rcases hcond with hname | ⟨hta, htype, hsim⟩
  · exact Or.inl (by rw [frameEq_name hfe, hname])
  · exact Or.inr ⟨hta, by rw [frameEq_etype hfe, htype],
      by rwa [frameEq_name hfe]⟩

theorem matchable_append {l l₂ : List Entity} {b : Entity} (hm : matchable l b) :
    matchable (l ++ l₂) b := by
  rcases hm with ⟨e, he, hcond⟩
  exact ⟨e, List.mem_append_left _ he, hcond⟩

theorem mergeStep_preserves_matchable (res : List Entity) (idMap : List (String × String))
    (n b : Entity) (h : matchable res b) : matchable (mergeStep (res, idMap) n).1 b := by
  rcases mergeStep_shape res idMap n with ⟨hf, _⟩ | happ
  · exact matchable_of_forall₂ hf h
  · rw [happ]; exact matchable_append h

theorem mergeFold_frame :
    ∀ (B : List Entity) (res : List Entity) (idMap : List (String × String)),
      ∃ sub, List.Sublist sub B
        ∧ List.Forall₂ frameEq ((B.foldl mergeStep (res, idMap)).1) (res ++ sub) := by
  intro B
  induction B with
  | nil =>
    intro res idMap
    exact ⟨[], List.nil_sublist _, by simpa using forall₂_frameEq_refl res⟩
  | cons n Bs ih =>
    intro res idMap
    rw [List.foldl_cons]
    rcases mergeStep_shape res idMap n with ⟨hf, _⟩ | happ
    · rcases ih (mergeStep (res, idMap) n).1 (mergeStep (res, idMap) n).2 with ⟨sub, hsub, hfa⟩
      refine ⟨sub, hsub.cons _, ?_⟩
      exact forall₂_frameEq_trans hfa
        (forall₂_frameEq_append hf (forall₂_frameEq_refl sub))
    · have hstate : mergeStep (res, idMap) n
          = (res ++ [n], (mergeStep (res, idMap) n).2) := by
        cases hms : mergeStep (res, idMap) n with
        | mk fst snd =>
          simp only [hms] at happ
          simp [happ]
      rw [hstate]
      rcases ih (res ++ [n]) (mergeStep (res, idMap) n).2 with ⟨sub', hsub', hfa⟩
      refine ⟨n :: sub', hsub'.cons₂ _, ?_⟩
      rw [show res ++ n :: sub' = (res ++ [n]) ++ sub' by simp]
      exact hfa

theorem mergeFold_preserves_matchable :
    ∀ (B : List Entity) (res : List Entity) (idMap : List (String × String)) (b : Entity),
      matchable res b → matchable ((B.foldl mergeStep (res, idMap)).1) b := by
  intro B
  induction B with
  | nil => intro res idMap b h; exact h
  | cons n Bs ih =>
    intro res idMap b h
    rw [List.foldl_cons]
    exact ih _ _ b (mergeStep_preserves_matchable res idMap n b h)

theorem mergeFold_matchable :
    ∀ (B : List Entity) (res : List Entity) (idMap : List (String × String)) (b : Entity),
      b ∈ B → matchable ((B.foldl mergeStep (res, idMap)).1) b := by
  intro B
  induction B with
  | nil => intro res idMap b h; simp at h
  | cons n Bs ih =>
    intro res idMap b h
    rw [List.foldl_cons]
    rcases List.mem_cons.mp h with rfl | hb
    · exact mergeFold_preserves_matchable Bs _ _ b (mergeStep_matchable_self res idMap b)
    · exact ih _ _ b hb

theorem mergeFold_no_append :
    ∀ (B : List Entity) (res : List Entity) (idMap : List (String × String)),
      (∀ b ∈ B, matchable res b) →
      List.Forall₂ frameEq ((B.foldl mergeStep (res, idMap)).1) res := by
  intro B
  induction B with
  | nil => intro res idMap _; exact forall₂_frameEq_refl res
  | cons n Bs ih =>
    intro res idMap h
    rw [List.foldl_cons]
    have hstep : List.Forall₂ frameEq (mergeStep (res, idMap) n).1 res :=
      mergeStep_no_append res idMap n (h n (List.mem_cons_self _ _))
    have hrest : ∀ b ∈ Bs, matchable (mergeStep (res, idMap) n).1 b := by
      intro b hb
      exact matchable_of_forall₂ hstep (h b (List.mem_cons_of_mem _ hb))
    exact forall₂_frameEq_trans (ih _ _ hrest) hstep

theorem mergeStep_eq_of_exact (res : List Entity) (idMap : List (String × String))
    (n : Entity) (r1 : List Entity) (r2 : Entity)
    (hu : updateFirst (exactPred n) (fun m => mergeUpdate m n) res = some (r1, r2)) :
    mergeStep (res, idMap) n = (r1, mapSet idMap n.id r2.id) := by
  unfold mergeStep
  rw [hu]

theorem mergeStep_eq_of_fuzzy (res : List Entity) (idMap : List (String × String))
    (n : Entity) (r1 : List Entity) (r2 : Entity)
    (hu : updateFirst (exactPred n) (fun m => mergeUpdate m n) res = none)
    (hta : (n.etype == EntityType.THREAT_ACTOR) = true)
    (hf : updateFirst (fuzzyPred n) (fun m => mergeUpdate m n) res = some (r1, r2)) :
    mergeStep (res, idMap) n = (r1, mapSet idMap n.id r2.id) := by
  unfold mergeStep
  rw [hu, hta]
  simp only [if_true]
  rw [hf]

theorem mergeStep_eq_append (res : List Entity) (idMap : List (String × String))
    (n : Entity)
    (hu : updateFirst (exactPred n) (fun m => mergeUpdate m n) res = none)
    (h2 : (n.etype == EntityType.THREAT_ACTOR) = false
        ∨ updateFirst (fuzzyPred n) (fun m => mergeUpdate m n) res = none) :
    mergeStep (res, idMap) n = (res ++ [n], mapSet idMap n.id n.id) := by
  unfold mergeStep
  rw [hu]
  rcases h2 with hta | hf
  · rw [hta]
    simp only [Bool.false_eq_true, if_false]
  · by_cases hta : (n.etype == EntityType.THREAT_ACTOR) = true
    · rw [hta]
      simp only [if_true]
      rw [hf]
    · rw [Bool.not_eq_true] at hta
      rw [hta]
      simp only [Bool.false_eq_true, if_false]

/-! ### Claims C2, C5, C6, C10 about mergeKnowledgeGraph -/
/-- C2 counterexample: the claim asserts that on a match the existing
record's aliases (and sectors, tools) become the set union of old and new
and that a novel incoming description is appended.  mergeKnowledgeGraph
does none of this: merging incoming "emotet" (alias "y", sector "Defense",
new description) into existing "Emotet" (alias "x") leaves aliases at
["x"], sectors at ["Financial"] and the description unchanged. -/
theorem merge_does_not_union_aliases :
    (mergeKnowledgeGraph [cEmotetOld] [cEmotetNew]).1.map
        (fun e => (e.aliases, e.sectors, e.description))
      = [(["x"], some ["Financial"], some "old description")]
    ∧ "y" ∈ cEmotetNew.aliases
    ∧ "y" ∉ (["x"] : List String) := by
  decide

/-- C2 (amended): when mergeKnowledgeGraph matches an incoming entity
against the current list (evidenced by the merge step not growing the
list), the only mutation is mergeUpdate applied to the first matching
record: lastSeen becomes the incoming value, sources becomes the set
union of old and new, confidenceScore becomes the maximum of old and
new, and every other field — in particular aliases, sectors, tools and
description — is left unchanged (no union, no timestamped append). -/
theorem merge_match_updates_exactly_three_fields
    (res : List Entity) (idMap : List (String × String)) (n : Entity)
    (h : (mergeStep (res, idMap) n).1.length = res.length) :
    ∃ i m, res.get? i = some m
      ∧ (mergeStep (res, idMap) n).1 = res.set i (mergeUpdate m n)
      ∧ (mergeUpdate m n).lastSeen = n.lastSeen
      ∧ (∀ s, s ∈ (mergeUpdate m n).sources ↔ s ∈ m.sources ∨ s ∈ n.sources)
      ∧ (mergeUpdate m n).confidenceScore = max m.confidenceScore n.confidenceScore
      ∧ frameEq (mergeUpdate m n) m := by
  cases hu : updateFirst (exactPred n) (fun m => mergeUpdate m n) res with
  | some r =>
    obtain ⟨r1, r2⟩ := r
    have hstep := mergeStep_eq_of_exact res idMap n r1 r2 hu
    rcases updateFirst_some_set _ _ res r1 r2 hu with ⟨_, i, hget, hs⟩
    refine ⟨i, r2, hget, ?_, rfl, ?_, rfl, rfl⟩
    · rw [hstep]
      exact hs
    · intro s
      simp [mergeUpdate, mem_jsDedup]
  | none =>
    by_cases hta : (n.etype == EntityType.THREAT_ACTOR) = true
    · cases hf : updateFirst (fuzzyPred n) (fun m => mergeUpdate m n) res with
      | some r =>
        obtain ⟨r1, r2⟩ := r
        have hstep := mergeStep_eq_of_fuzzy res idMap n r1 r2 hu hta hf
        rcases updateFirst_some_set _ _ res r1 r2 hf with ⟨_, i, hget, hs⟩
        refine ⟨i, r2, hget, ?_, rfl, ?_, rfl, rfl⟩
        · rw [hstep]
          exact hs
        · intro s
          simp [mergeUpdate, mem_jsDedup]
      | none =>
        have hstep := mergeStep_eq_append res idMap n hu (Or.inr hf)
        rw [hstep] at h
        simp at h
    · rw [Bool.not_eq_true] at hta
      have hstep := mergeStep_eq_append res idMap n hu (Or.inl hta)
      rw [hstep] at h
      simp at h

/-- Witness for the amended C2 at the concrete Emotet merge. -/
theorem merge_match_updates_witness :
    ∃ i m, [cEmotetOld].get? i = some m
      ∧ (mergeStep ([cEmotetOld], []) cEmotetNew).1 = [cEmotetOld].set i (mergeUpdate m cEmotetNew)
      ∧ (mergeUpdate m cEmotetNew).lastSeen = cEmotetNew.lastSeen
      ∧ (∀ s, s ∈ (mergeUpdate m cEmotetNew).sources ↔ s ∈ m.sources ∨ s ∈ cEmotetNew.sources)
      ∧ (mergeUpdate m cEmotetNew).confidenceScore
          = max m.confidenceScore cEmotetNew.confidenceScore
      ∧ frameEq (mergeUpdate m cEmotetNew) m :=
  merge_match_updates_exactly_three_fields [cEmotetOld] [] cEmotetNew (by decide)

/-- C5: the merge-target selection policy of mergeKnowledgeGraph for a
single incoming entity n against a collection es: (1) if some existing
entity's name equals n's case-insensitively, the first such entity is the
merge target; (2) otherwise, if n is a THREAT_ACTOR, the first existing
THREAT_ACTOR whose character-set Jaccard similarity with n's name exceeds
0.8 is the merge target; (3) otherwise (in particular whenever n is not a
THREAT_ACTOR, regardless of any similarity), n is appended as a new record
and its id maps to itself. -/
theorem merge_target_selection_policy (es : List Entity) (n : Entity) :
    (∀ m, es.find? (exactPred n) = some m →
        mapGet? (mergeKnowledgeGraph es [n]).2 n.id = some m.id
        ∧ (mergeKnowledgeGraph es [n]).1.length = es.length)
    ∧ (es.find? (exactPred n) = none → n.etype = EntityType.THREAT_ACTOR →
        ∀ m, es.find? (fun e => e.etype == EntityType.THREAT_ACTOR
              && decide (mkRat 4 5 < getSimilarity e.name n.name)) = some m →
        mapGet? (mergeKnowledgeGraph es [n]).2 n.id = some m.id
        ∧ (mergeKnowledgeGraph es [n]).1.length = es.length)
    ∧ (es.find? (exactPred n) = none →
        (n.etype ≠ EntityType.THREAT_ACTOR ∨ es.find? (fuzzyPred n) = none) →
        (mergeKnowledgeGraph es [n]).1 = es ++ [n]
        ∧ mapGet? (mergeKnowledgeGraph es [n]).2 n.id = some n.id) := by
  have hone : mergeKnowledgeGraph es [n] = mergeStep (es, []) n := rfl
  refine ⟨?_, ?_, ?_⟩
  · intro m hfind
    have hsnd := updateFirst_map_snd (exactPred n) (fun m => mergeUpdate m n) es
    rw [hfind] at hsnd
    cases hu : updateFirst (exactPred n) (fun m => mergeUpdate m n) es with
    | none => rw [hu] at hsnd; simp at hsnd
    | some r =>
      obtain ⟨r1, r2⟩ := r
      rw [hu] at hsnd
      simp only [Option.map_some'] at hsnd
      have hm : r2 = m := Option.some.inj hsnd
      rcases updateFirst_some_set _ _ es r1 r2 hu with ⟨_, i, hget, hs⟩
      rw [hone, mergeStep_eq_of_exact es [] n r1 r2 hu]
      constructor
      · simp [mapSet, mapGet?, hm]
      · simp [hs]
  · intro hnone hta m hfind
    have hpred : (fun e => e.etype == EntityType.THREAT_ACTOR
        && decide (mkRat 4 5 < getSimilarity e.name n.name)) = fuzzyPred n := by
      funext e
      simp [fuzzyPred, hta]
    rw [hpred] at hfind
    have hu0 : updateFirst (exactPred n) (fun m => mergeUpdate m n) es = none := by
      rw [updateFirst_none_iff]
      intro e he
      have := List.find?_eq_none.mp hnone e he
      simpa using this
    have hsnd := updateFirst_map_snd (fuzzyPred n) (fun m => mergeUpdate m n) es
    rw [hfind] at hsnd
    cases hf : updateFirst (fuzzyPred n) (fun m => mergeUpdate m n) es with
    | none => rw [hf] at hsnd; simp at hsnd
    | some r =>
      obtain ⟨r1, r2⟩ := r
      rw [hf] at hsnd
      simp only [Option.map_some'] at hsnd
      have hm : r2 = m := Option.some.inj hsnd
      rcases updateFirst_some_set _ _ es r1 r2 hf with ⟨_, i, hget, hs⟩
      rw [hone, mergeStep_eq_of_fuzzy es [] n r1 r2 hu0 (by simp [hta]) hf]
      constructor
      · simp [mapSet, mapGet?, hm]
      · simp [hs]
  · intro hnone hcase
    have hu0 : updateFirst (exactPred n) (fun m => mergeUpdate m n) es = none := by
      rw [updateFirst_none_iff]
      intro e he
      have := List.find?_eq_none.mp hnone e he
      simpa using this
    rcases hcase with hnta | hfnone
    · rw [hone, mergeStep_eq_append es [] n hu0 (Or.inl (by simpa using hnta))]
      exact ⟨rfl, by simp [mapSet, mapGet?]⟩
    · have hf0 : updateFirst (fuzzyPred n) (fun m => mergeUpdate m n) es = none := by
        rw [updateFirst_none_iff]
        intro e he
        have := List.find?_eq_none.mp hfnone e he
        simpa using this
      rw [hone, mergeStep_eq_append es [] n hu0 (Or.inr hf0)]
      exact ⟨rfl, by simp [mapSet, mapGet?]⟩

/-- Witness for C5: the incoming THREAT_ACTOR "Fancy Bear" folds into the
existing "Fancy Bear APT" (character Jaccard similarity 9/11 > 0.8)
instead of creating a new record. -/
theorem merge_target_fancy_bear_witness :
    mapGet? (mergeKnowledgeGraph [cFancyAPT] [cFancyActor]).2 cFancyActor.id
        = some cFancyAPT.id
    ∧ (mergeKnowledgeGraph [cFancyAPT] [cFancyActor]).1.length = 1 :=
  (merge_target_selection_policy [cFancyAPT] cFancyActor).2.1
    (by decide) rfl cFancyAPT (by decide)

/-- C6 counterexample: merging the batch [cFancyActor (0.95), cFancyMal
(same name, MALWARE, 0.9)] into [cFancyAPT (0.9)] twice is not
idempotent.  In the first pass cFancyActor fuzzy-matches cFancyAPT and
cFancyMal is appended with confidence 0.9; in the second pass cFancyActor
exact-matches the appended cFancyMal (same lowercased name) and raises
its confidence to 0.95. -/
theorem merge_second_pass_changes_confidence :
    (mergeKnowledgeGraph [cFancyAPT] cBatch).1.map Entity.confidenceScore
      = [mkRat 19 20, mkRat 9 10]
    ∧ (mergeKnowledgeGraph (mergeKnowledgeGraph [cFancyAPT] cBatch).1 cBatch).1.map
        Entity.confidenceScore
      = [mkRat 19 20, mkRat 19 20]
    ∧ (mkRat 9 10 : ℚ) ≠ mkRat 19 20 := by
  decide

/-- C6 (amended): merging the same batch twice is idempotent for the
entity count and for every entity's aliases, sectors and tools (the merge
never writes those fields), but not for confidence scores, sources or
lastSeen, which the second pass may change when an incoming entity
matches a different target than in the first pass. -/
theorem merge_idempotent_count_and_immutable_fields (G B : List Entity) :
    ((mergeKnowledgeGraph (mergeKnowledgeGraph G B).1 B).1.length
        = (mergeKnowledgeGraph G B).1.length)
    ∧ ∀ i, ((mergeKnowledgeGraph (mergeKnowledgeGraph G B).1 B).1.get? i).map
            (fun e => (e.aliases, e.sectors, e.tools))
        = ((mergeKnowledgeGraph G B).1.get? i).map
            (fun e => (e.aliases, e.sectors, e.tools)) := by
  have hmatch : ∀ b ∈ B, matchable (mergeKnowledgeGraph G B).1 b :=
    fun b hb => mergeFold_matchable B G [] b hb
  have hfa : List.Forall₂ frameEq
      (mergeKnowledgeGraph (mergeKnowledgeGraph G B).1 B).1
      (mergeKnowledgeGraph G B).1 :=
    mergeFold_no_append B (mergeKnowledgeGraph G B).1 [] hmatch
  refine ⟨hfa.length_eq, ?_⟩
  exact forall₂_frameEq_get?_proj _
    (fun a b h => by rw [frameEq_aliases h, frameEq_sectors h, frameEq_tools h]) hfa

/-- C10 counterexample: an unmatched incoming entity is appended but not
necessarily verbatim: with an empty current graph and the batch
[cX1 ("X", 0.5), cX2 ("x", CVE, 0.9)], cX1 is appended and then mutated
when cX2 exact-matches it, so the final appended record's confidence is
0.9, not cX1's 0.5. -/
theorem merge_appended_entity_not_verbatim :
    (mergeKnowledgeGraph [] [cX1, cX2]).1.map Entity.confidenceScore = [mkRat 9 10]
    ∧ cX1.confidenceScore = mkRat 1 2
    ∧ (mkRat 9 10 : ℚ) ≠ mkRat 1 2 := by
  decide

/-- C10 (amended): mergeKnowledgeGraph removes and reorders nothing: the
merged list is frame-equal, position by position, to the current list
followed by a subsequence of the incoming batch in batch order.  Frame
equality fixes id, name, type, firstSeen, aliases, sectors, tools,
description, isEnriched and isValidated, so any record — existing or
appended — changes at most in lastSeen, sources and confidenceScore
(appended records change only when a later batch entity matches them). -/
theorem merge_frame_preservation (current B : List Entity) :
    ∃ sub, List.Sublist sub B
      ∧ List.Forall₂ frameEq (mergeKnowledgeGraph current B).1 (current ++ sub) :=
  mergeFold_frame B current []

/-- C3 counterexample: the claim asserts deduplication on the exact
(source, target, type) triple, dropping an incoming relationship whose
triple matches a stored one even when the weight differs.  The code
dedupes on the JSON.stringify of the whole record, so the incoming
relationship with a different weight is kept and the stored set ends up
with two relationships sharing one triple. -/
theorem reconcile_keeps_weight_variant_duplicate :
    reconcileRelationships [cPrevRel] [cIncRel] [] = [cPrevRel, cIncRel]
    ∧ cPrevRel.source = cIncRel.source
    ∧ cPrevRel.target = cIncRel.target
    ∧ cPrevRel.rtype = cIncRel.rtype
    ∧ cPrevRel.weight ≠ cIncRel.weight := by
  decide

/-- C3 (amended): the reconciliation rewrites each incoming relationship's
endpoints through the id map (identity when absent), drops every
relationship whose rewritten source equals its rewritten target, appends
the remainder to the existing set, and deduplicates on the entire record
(source, target, type and weight) keeping first occurrences — not on the
(source, target, type) triple: an incoming relationship that matches a
stored one in the triple but differs in weight is kept. -/
theorem reconcile_membership_and_nodup (prev inc : List Relationship)
    (m : List (String × String)) :
    (reconcileRelationships prev inc m).Nodup
    ∧ ∀ r, r ∈ reconcileRelationships prev inc m
        ↔ (r ∈ prev ∨ ∃ r' ∈ inc, r = remapRel m r' ∧ r.source ≠ r.target) := by
  refine ⟨nodup_jsDedup _, ?_⟩
  intro r
  rw [reconcileRelationships, mem_jsDedup, List.mem_append]
  simp only [List.mem_filter, List.mem_map]
  constructor
  · rintro (h | ⟨⟨r', hr', rfl⟩, hne⟩)
    · exact Or.inl h
    · refine Or.inr ⟨r', hr', rfl, ?_⟩
      simpa using hne
  · rintro (h | ⟨r', hr', rfl, hne⟩)
    · exact Or.inl h
    · refine Or.inr ⟨⟨r', hr', rfl⟩, ?_⟩
      simpa using hne

/-! ### Structural lemmas about extraction -/
theorem freshId_inj {a b : Nat} (h : freshId a = freshId b) : a = b := by
  have hl := congrArg (fun s => s.toList.length) h
  simpa [freshId] using hl

theorem buildEntitiesAux_goodIds (s ts : String) :
    ∀ (cands : List ExtractionCandidate) (acc : List Entity),
      (∀ i e, acc.get? i = some e → e.id = freshId i) →
      ∀ i e, (buildEntitiesAux s ts cands acc).get? i = some e → e.id = freshId i := by
  intro cands
  induction cands with
  | nil => intro acc hacc i e h; exact hacc i e h
  | cons c cs ih =>
    intro acc hacc i e h
    simp only [buildEntitiesAux] at h
    by_cases hdup : acc.any (fun e => lowerStr e.name == lowerStr c.name)
    · rw [if_pos hdup] at h
      exact ih acc hacc i e h
    · rw [if_neg hdup] at h
      refine ih _ ?_ i e h
      intro j e' hj
      by_cases hlt : j < acc.length
      · rw [List.get?_append hlt] at hj
        exact hacc j e' hj
      · have hge : acc.length ≤ j := Nat.le_of_not_lt hlt
        rw [List.get?_append_right hge] at hj
        rcases Nat.lt_or_ge (j - acc.length) 1 with hsm | hbig
        · have hz : j - acc.length = 0 := Nat.lt_one_iff.mp hsm
          rw [hz] at hj
          simp only [List.get?] at hj
          have he' := Option.some.inj hj
          have hjj : j = acc.length := by omega
          rw [← he', hjj]
          rfl
        · have : ([mkExtractedEntity s ts c acc.length].get? (j - acc.length)) = none := by
            apply List.get?_eq_none.mpr
            simpa using hbig
          rw [this] at hj
          exact absurd hj (by simp)

theorem buildEntities_id_inj (s ts : String) (cands : List ExtractionCandidate) :
    ∀ e1 ∈ buildEntities s ts cands, ∀ e2 ∈ buildEntities s ts cands,
      e1.id = e2.id → e1 = e2 := by
  intro e1 h1 e2 h2 hid
  have hgood := buildEntitiesAux_goodIds s ts cands []
    (by intro i e h; simp at h)
  rcases List.mem_iff_get?.mp h1 with ⟨i, hi⟩
  rcases List.mem_iff_get?.mp h2 with ⟨j, hj⟩
  have hidi := hgood i e1 hi
  have hidj := hgood j e2 hj
  have hij : i = j := freshId_inj (by rw [← hidi, ← hidj, hid])
  rw [hij] at hi
  rw [hi] at hj
  exact Option.some.inj hj

theorem entityFor_mem {ents : List Entity} {c : ExtractionCandidate} {e : Entity}
    (h : entityFor ents c = some e) : e ∈ ents :=
  List.mem_of_find?_eq_some h

theorem entityFor_name {ents : List Entity} {c : ExtractionCandidate} {e : Entity}
    (h : entityFor ents c = some e) : lowerStr e.name = lowerStr c.name := by
  have := List.find?_some h
  simpa using this

theorem entityFor_id_ne {ents : List Entity} {c c' : ExtractionCandidate}
    {e e' : Entity}
    (hinj : ∀ a ∈ ents, ∀ b ∈ ents, a.id = b.id → a = b)
    (h : entityFor ents c = some e) (h' : entityFor ents c' = some e')
    (hk : lowerStr c.name ≠ lowerStr c'.name) : e.id ≠ e'.id := by
  intro hid
  have he : e = e' := hinj e (entityFor_mem h) e' (entityFor_mem h') hid
  apply hk
  rw [← entityFor_name h, he, entityFor_name h']

theorem corrPair_mem_spec (ents : List Entity) (c1 c2 : ExtractionCandidate)
    (r : Relationship) (hr : r ∈ corrPair ents c1 c2) :
    c1.ctype ≠ c2.ctype
      ∧ ∃ e1 e2, entityFor ents c1 = some e1 ∧ entityFor ents c2 = some e2
        ∧ r.source = e1.id ∧ r.target = e2.id ∧ r.rtype = "CORRELATED_TO" := by
  unfold corrPair at hr
  by_cases ht : c1.ctype == c2.ctype
  · rw [if_pos ht] at hr
    simp at hr
  · rw [if_neg ht] at hr
    by_cases hd : natDist c1.index c2.index < 350
    · rw [if_pos hd] at hr
      cases h1 : entityFor ents c1 with
      | none => rw [h1] at hr; simp at hr
      | some e1 =>
        cases h2 : entityFor ents c2 with
        | none => rw [h1, h2] at hr; simp at hr
        | some e2 =>
          rw [h1, h2] at hr
          have hr2 := List.mem_singleton.mp hr
          subst hr2
          exact ⟨by simpa using ht, e1, e2, rfl, rfl, rfl, rfl, rfl⟩
    · rw [if_neg hd] at hr
      simp at hr

theorem corrOne_mem_spec (ents : List Entity) (c1 : ExtractionCandidate) :
    ∀ (cs : List ExtractionCandidate) (r : Relationship), r ∈ corrOne ents c1 cs →
      ∃ c2 ∈ cs, c1.ctype ≠ c2.ctype
        ∧ ∃ e1 e2, entityFor ents c1 = some e1 ∧ entityFor ents c2 = some e2
          ∧ r.source = e1.id ∧ r.target = e2.id ∧ r.rtype = "CORRELATED_TO" := by
  intro cs
  induction cs with
  | nil => intro r hr; simp [corrOne] at hr
  | cons c2 rest ih =>
    intro r hr
    simp only [corrOne] at hr
    rcases List.mem_append.mp hr with hhead | htail
    · exact ⟨c2, List.mem_cons_self _ _, corrPair_mem_spec ents c1 c2 r hhead⟩
    · rcases ih r htail with ⟨c2', hc2', hspec⟩
      exact ⟨c2', List.mem_cons_of_mem _ hc2', hspec⟩

theorem corrRels_mem_spec (ents : List Entity) :
    ∀ (cs : List ExtractionCandidate) (r : Relationship), r ∈ corrRels ents cs →
      ∃ c1 ∈ cs, ∃ c2 ∈ cs, c1.ctype ≠ c2.ctype
        ∧ ∃ e1 e2, entityFor ents c1 = some e1 ∧ entityFor ents c2 = some e2
          ∧ r.source = e1.id ∧ r.target = e2.id ∧ r.rtype = "CORRELATED_TO" := by
  intro cs
  induction cs with
  | nil => intro r hr; simp [corrRels] at hr
  | cons c1 rest ih =>
    intro r hr
    simp only [corrRels] at hr
    rcases List.mem_append.mp hr with hhead | htail
    · rcases corrOne_mem_spec ents c1 rest r hhead with ⟨c2, hc2, hspec⟩
      exact ⟨c1, List.mem_cons_self _ _, c2, List.mem_cons_of_mem _ hc2, hspec⟩
    · rcases ih r htail with ⟨ca, hca, cb, hcb, hspec⟩
      exact ⟨ca, List.mem_cons_of_mem _ hca, cb, List.mem_cons_of_mem _ hcb, hspec⟩

/-! ### Claims C1, C4, C9 about processTextLocal -/
/-- C9: every relationship returned by processTextLocal references only
entities in the returned entity list: its source and its target are each
the id of some returned entity. -/
theorem extraction_rels_reference_extracted_entities
    (text sourceId timestamp : String) :
    ∀ r ∈ (processTextLocal text sourceId timestamp).2,
      (∃ e ∈ (processTextLocal text sourceId timestamp).1, r.source = e.id)
      ∧ (∃ e ∈ (processTextLocal text sourceId timestamp).1, r.target = e.id) := by
  intro r hr
  rcases corrRels_mem_spec _ _ r hr with
    ⟨c1, _, c2, _, _, e1, e2, h1, h2, hs, ht, _⟩
  exact ⟨⟨e1, entityFor_mem h1, hs⟩, ⟨e2, entityFor_mem h2, ht⟩⟩

/-- Witness for C9 on a concrete text that produces one relationship. -/
theorem extraction_rels_reference_witness :
    (∃ e ∈ (processTextLocal "1.2.3.4 Emotet" "s1" "t1").1,
        (Relationship.mk "e" "ex" "CORRELATED_TO" (mkRat 1 2)).source = e.id)
      ∧ (∃ e ∈ (processTextLocal "1.2.3.4 Emotet" "s1" "t1").1,
        (Relationship.mk "e" "ex" "CORRELATED_TO" (mkRat 1 2)).target = e.id) :=
  extraction_rels_reference_extracted_entities "1.2.3.4 Emotet" "s1" "t1"
    (Relationship.mk "e" "ex" "CORRELATED_TO" (mkRat 1 2)) (by decide)

/-- C1 counterexample: processTextLocal can emit a self-loop.  On the text
"1.2.3.45" both the IP pattern and the DOMAIN pattern match the whole
string, producing two candidates of different types with the same
lowercased name; they deduplicate to a single entity, and the proximity
pass (which only skips pairs of equal types) links that entity to itself. -/
theorem extraction_selfLoop_on_dotted_quad :
    ((processTextLocal "1.2.3.45" "s1" "t1").2.map
        (fun r => (r.source, r.target, r.rtype)))
      = [("e", "e", "CORRELATED_TO")]
    ∧ ((processTextLocal "1.2.3.45" "s1" "t1").2.any
        (fun r => r.source == r.target)) = true := by
  decide

/-- C1 (amended): the proximity pass never emits a self-loop provided no
two candidates of different types share the same lowercased name (the
only way both regex passes can resolve one pair to a single entity).  The
self-loops that do arise this way are dropped later by the relationship
reconciliation in handleIngest, so none is stored. -/
theorem extraction_no_selfLoop_of_type_determined_names
    (text sourceId timestamp : String)
    (h : ∀ c1 ∈ candidatesOf text, ∀ c2 ∈ candidatesOf text,
        lowerStr c1.name = lowerStr c2.name → c1.ctype = c2.ctype) :
    ∀ r ∈ (processTextLocal text sourceId timestamp).2, r.source ≠ r.target := by
  intro r hr heq
  rcases corrRels_mem_spec _ _ r hr with
    ⟨c1, hc1, c2, hc2, htype, e1, e2, h1, h2, hs, ht, _⟩
  have hid : e1.id = e2.id := by rw [← hs, ← ht, heq]
  have he : e1 = e2 :=
    buildEntities_id_inj sourceId timestamp (candidatesOf text)
      e1 (entityFor_mem h1) e2 (entityFor_mem h2) hid
  apply htype
  apply h c1 hc1 c2 hc2
  rw [← entityFor_name h1, he, entityFor_name h2]

/-- Witness for the amended C1: on "1.2.3.4 Emotet" (distinct candidate
names) no emitted relationship is a self-loop. -/
theorem extraction_no_selfLoop_witness :
    ((processTextLocal "1.2.3.4 Emotet" "s1" "t1").2.all
      (fun r => !(r.source == r.target))) = true := by
  rw [List.all_eq_true]
  intro r hr
  have := extraction_no_selfLoop_of_type_determined_names
    "1.2.3.4 Emotet" "s1" "t1" (by decide) r hr
  simpa using this

theorem corrPair_triples_nodup (ents : List Entity) (c1 c2 : ExtractionCandidate) :
    ((corrPair ents c1 c2).map (fun r => (r.source, r.target, r.rtype))).Nodup := by
  unfold corrPair
  by_cases ht : c1.ctype == c2.ctype
  · rw [if_pos ht]; simp
  · rw [if_neg ht]
    by_cases hd : natDist c1.index c2.index < 350
    · rw [if_pos hd]
      cases entityFor ents c1 <;> cases entityFor ents c2 <;> simp
    · rw [if_neg hd]; simp

theorem corrOne_triples_nodup (ents : List Entity) (c1 : ExtractionCandidate)
    (hinj : ∀ a ∈ ents, ∀ b ∈ ents, a.id = b.id → a = b) :
    ∀ cs : List ExtractionCandidate,
      List.Pairwise (fun a b => lowerStr a.name ≠ lowerStr b.name) cs →
      ((corrOne ents c1 cs).map (fun r => (r.source, r.target, r.rtype))).Nodup := by
  intro cs
  induction cs with
  | nil => intro _; simp [corrOne]
  | cons c2 rest ih =>
    intro hpw
    rcases List.pairwise_cons.mp hpw with ⟨hhead, hpwrest⟩
    simp only [corrOne, List.map_append]
    refine List.Nodup.append (corrPair_triples_nodup ents c1 c2) (ih hpwrest) ?_
    intro t htb htr
    rcases List.mem_map.mp htb with ⟨r, hrb, rfl⟩
    rcases List.mem_map.mp htr with ⟨r', hrr, htt⟩
    rcases corrPair_mem_spec ents c1 c2 r hrb with
      ⟨_, e1, e2, _, h2, _, hrt, _⟩
    rcases corrOne_mem_spec ents c1 rest r' hrr with
      ⟨c2', hc2', _, e1', e2', _, h2', _, hrt', _⟩
    have htarget : r.target = r'.target := congrArg (fun t => t.2.1) htt.symm
    have : e2.id = e2'.id := by rw [← hrt, ← hrt', htarget]
    exact entityFor_id_ne hinj h2 h2' (hhead c2' hc2') this

theorem corrRels_triples_nodup (ents : List Entity)
    (hinj : ∀ a ∈ ents, ∀ b ∈ ents, a.id = b.id → a = b) :
    ∀ cs : List ExtractionCandidate,
      List.Pairwise (fun a b => lowerStr a.name ≠ lowerStr b.name) cs →
      ((corrRels ents cs).map (fun r => (r.source, r.target, r.rtype))).Nodup := by
  intro cs
  induction cs with
  | nil => intro _; simp [corrRels]
  | cons c1 rest ih =>
    intro hpw
    rcases List.pairwise_cons.mp hpw with ⟨hhead, hpwrest⟩
    simp only [corrRels, List.map_append]
    refine List.Nodup.append (corrOne_triples_nodup ents c1 hinj rest hpwrest)
      (ih hpwrest) ?_
    intro t htb htr
    rcases List.mem_map.mp htb with ⟨r, hrb, rfl⟩
    rcases List.mem_map.mp htr with ⟨r', hrr, htt⟩
    rcases corrOne_mem_spec ents c1 rest r hrb with
      ⟨c2, hc2, _, e1, e2, h1, _, hrs, _, _⟩
    rcases corrRels_mem_spec ents rest r' hrr with
      ⟨c1', hc1', c2', hc2', _, e1', e2', h1', _, hrs', _, _⟩
    have hsource : r.source = r'.source := congrArg (fun t => t.1) htt.symm
    have : e1.id = e1'.id := by rw [← hrs, ← hrs', hsource]
    exact entityFor_id_ne hinj h1 h1' (hhead c1' hc1') this

/-- C4 counterexample: on a text in which the same indicator string occurs
twice ("CVE-2024-1234 Emotet CVE-2024-1234"), both CVE candidates resolve
to the same entity and the proximity pass emits the identical
(source, target, type) triple twice. -/
theorem extraction_duplicate_triple_on_repeated_indicator :
    ((processTextLocal "CVE-2024-1234 Emotet CVE-2024-1234" "s1" "t1").2.map
        (fun r => (r.source, r.target, r.rtype)))
      = [("e", "ex", "CORRELATED_TO"), ("e", "ex", "CORRELATED_TO")]
    ∧ ¬ ((processTextLocal "CVE-2024-1234 Emotet CVE-2024-1234" "s1" "t1").2.map
        (fun r => (r.source, r.target, r.rtype))).Nodup := by
  decide

/-- C4 (amended): no two relationships returned by processTextLocal share
an identical (source, target, type) triple provided no two candidates of
the text share the same lowercased name; with repeated candidate names
(e.g. a repeated indicator string) duplicate triples occur. -/
theorem extraction_rel_triples_nodup_of_distinct_names
    (text sourceId timestamp : String)
    (h : ((candidatesOf text).map (fun c => lowerStr c.name)).Nodup) :
    ((processTextLocal text sourceId timestamp).2.map
      (fun r => (r.source, r.target, r.rtype))).Nodup := by
  have hpw : List.Pairwise (fun a b => lowerStr a.name ≠ lowerStr b.name)
      (candidatesOf text) := List.pairwise_map.mp h
  exact corrRels_triples_nodup _
    (buildEntities_id_inj sourceId timestamp (candidatesOf text))
    (candidatesOf text) hpw

/-- Witness for the amended C4 at a concrete text with distinct candidate
names. -/
theorem extraction_rel_triples_nodup_witness :
    ((processTextLocal "1.2.3.4 Emotet" "s1" "t1").2.map
      (fun r => (r.source, r.target, r.rtype))).Nodup :=
  extraction_rel_triples_nodup_of_distinct_names "1.2.3.4 Emotet" "s1" "t1"
    (by decide)

/-! ### Claim C8 about the TQL interpreter -/
theorem evalCond_confidence50 (e : Entity) :
    evalCond e "confidence > 50" = decide (mkRat 1 2 < e.confidenceScore) := by
  have hp : parseCond "confidence > 50" = some ("confidence", ">", "50") := rfl
  unfold evalCond
  rw [hp]
  dsimp only
  rw [show jsParseFloat (trimStr (stripQuotes "50")) = some (mkRat 50 1) from by decide]
  dsimp only
  rw [show (lowerStr "confidence" == "confidence") = true from rfl]
  rw [show (decide ((1 : ℚ) < mkRat 50 1)) = true from by decide]
  simp only [if_true]
  have h2 : (mkRat 50 1 : ℚ) / 100 = mkRat 1 2 := by
    rw [Rat.mkRat_eq_div, Rat.mkRat_eq_div]
    norm_num
  rw [h2]
  rfl

theorem showCol_sectors (entities : List Entity) (rels : List Relationship)
    (e : Entity) :
    showCol entities rels e "SECTORS" = [("Sectors", sectorsColumnSpec e)] := by
  have h0 : showCol entities rels e "SECTORS"
      = [("Sectors",
          match e.sectors with
          | none => "-"
          | some l => if joinSep ", " l == "" then "-" else joinSep ", " l)] := rfl
  rw [h0]
  unfold sectorsColumnSpec
  cases hs : e.sectors with
  | none => rfl
  | some l =>
    by_cases hj : joinSep ", " l = ""
    · simp [hj]
    · simp [hj]

theorem mkRow_sectors_cols (entities : List Entity) (rels : List Relationship)
    (e : Entity) :
    (mkRow entities rels (some "SECTORS") e).cols
      = [("Sectors", sectorsColumnSpec e)] := by
  have h : (mkRow entities rels (some "SECTORS") e).cols
      = [] ++ showCol entities rels e "SECTORS" := rfl
  rw [h, List.nil_append, showCol_sectors]

/-- C8 counterexample: the original claim says the Sectors column equals
the comma-joined sectors list, or "-" when the list is empty.  For the
nonempty sectors list [""], whose comma-join is the empty string, the
code's falsy check (join || '-') yields "-" instead of the joined "". -/
theorem tql_sectors_blank_join_gives_dash :
    (runTQL queryAllShowSectors [cSectorEntity] []).map
        (fun rs => rs.map (fun r => r.cols))
      = Except.ok [[("Sectors", "-")]]
    ∧ cSectorEntity.sectors = some [""]
    ∧ joinSep ", " [""] = ""
    ∧ ("-" : String) ≠ "" := by
  exact ⟨rfl, rfl, rfl, by decide⟩

/-- C8 (amended): FROM THREAT_ACTOR WHERE confidence > 50 returns exactly
the THREAT_ACTOR entities whose confidenceScore exceeds 0.5 (the literal
50 is divided by 100 before the comparison), one row per entity in input
order; FROM ALL SHOW SECTORS returns one row per entity whose Sectors
column is the comma-joined sectors list when that join is nonempty and
"-" otherwise (empty list, missing list, or a list joining to the empty
string). -/
theorem tql_confidence_filter_and_sectors_column
    (es : List Entity) (rels : List Relationship) :
    (∃ rs, runTQL queryConfidence50 es rels = Except.ok rs
      ∧ rs.map QueryRow.rid
          = (es.filter (fun e => e.etype == EntityType.THREAT_ACTOR
              && decide (mkRat 1 2 < e.confidenceScore))).map Entity.id)
    ∧ ∃ rs2, runTQL queryAllShowSectors es rels = Except.ok rs2
      ∧ rs2.map QueryRow.cols
          = es.map (fun e => [("Sectors", sectorsColumnSpec e)]) := by
  constructor
  · have hrun : runTQL queryConfidence50 es rels
        = Except.ok (((es.filter (fun e =>
            (false || (some EntityType.THREAT_ACTOR == some e.etype)))).filter
              (fun e => (splitAnd "confidence > 50").all (fun c => evalCond e c)))
          |>.map (mkRow es rels none)) := rfl
    refine ⟨_, hrun, ?_⟩
    have hp1 : ∀ e : Entity,
        (false || (some EntityType.THREAT_ACTOR == some e.etype))
          = (e.etype == EntityType.THREAT_ACTOR) := by
      intro e
      cases e.etype <;> rfl
    have hp2 : ∀ e : Entity,
        ((splitAnd "confidence > 50").all (fun c => evalCond e c))
          = (decide (mkRat 1 2 < e.confidenceScore)) := by
      intro e
      have hsp : splitAnd "confidence > 50" = ["confidence > 50"] := rfl
      rw [hsp]
      simp [evalCond_confidence50]
    have hfilters :
        ((es.filter (fun e =>
            (false || (some EntityType.THREAT_ACTOR == some e.etype)))).filter
              (fun e => (splitAnd "confidence > 50").all (fun c => evalCond e c)))
          = es.filter (fun e => e.etype == EntityType.THREAT_ACTOR
              && decide (mkRat 1 2 < e.confidenceScore)) := by
      rw [List.filter_filter]
      apply List.filter_congr
      intro e _
      rw [hp1 e, hp2 e]
      rw [Bool.and_comm]
    rw [hfilters, List.map_map]
    rfl
  · have hrun2 : runTQL queryAllShowSectors es rels
        = Except.ok ((es.filter (fun e =>
            (true || ((none : Option EntityType) == some e.etype)))).map
          (mkRow es rels (some "SECTORS"))) := rfl
    refine ⟨_, hrun2, ?_⟩
    have hft : (es.filter (fun e =>
        (true || ((none : Option EntityType) == some e.etype)))) = es := by
      simp
    rw [hft, List.map_map]
    apply List.map_congr_left
    intro e _
    exact mkRow_sectors_cols es rels e

end ThreatNexus

